import Mathlib

/-!
The k2k forwarder (kernel log to Kafka).

A shallow embedding of the record codec (`klog.go`), the static partitioner
(`kafka.go`) and the start-up hashing of the partition key (`main.go`).

Go strings and byte slices are lists of byte values (`Nat`, each below 256);
machine arithmetic is written out with explicit reductions modulo `2^w`.
A run-time panic of the Go program (index out of range, division by zero)
is a distinguished result of the embedded function.
-/

namespace K2K

/-- A Go `string` or `[]byte`: the sequence of its byte values. -/
abbrev Bytes := List Nat

/-- The byte values of an ASCII text. -/
def ascii (s : String) : Bytes := s.toList.map Char.toNat

/-! ## Machine integers -/

/-- Conversion `int32(u)` of an unsigned 32-bit value: two's complement reinterpretation. -/
def toInt32 (u : Nat) : Int :=
  if u % 2 ^ 32 < 2 ^ 31 then ((u % 2 ^ 32 : Nat) : Int) else ((u % 2 ^ 32 : Nat) : Int) - 2 ^ 32

/-- The 64-bit two's complement bit pattern of a Go `int`. -/
def bits64 (x : Int) : Nat := (x % 2 ^ 64).toNat

/-- The Go `int` denoted by a 64-bit pattern. -/
def ofBits64 (u : Nat) : Int :=
  if u % 2 ^ 64 < 2 ^ 63 then ((u % 2 ^ 64 : Nat) : Int) else ((u % 2 ^ 64 : Nat) : Int) - 2 ^ 64

/-- Go `a & b` on `int`. -/
def andInt (a b : Int) : Int := ofBits64 (bits64 a &&& bits64 b)

/-! ## hash/fnv (32-bit FNV-1a), as used by `main` -/

/-- The state of `fnv.New32a()`: the offset basis. -/
def New32a : Nat := 2166136261

/-- The method `Write` of the 32-bit FNV-1a hash: xor the byte in, multiply by the prime, keep 32 bits. -/
def fnvWrite (h : Nat) (data : Bytes) : Nat :=
  data.foldl (fun acc b => ((acc ^^^ b) * 16777619) % 2 ^ 32) h

/-- The method `Sum32`: the current state. -/
def Sum32 (h : Nat) : Nat := h

/-- The 32-bit FNV-1a hash of a byte string. -/
def fnv1a32 (key : Bytes) : Nat := Sum32 (fnvWrite New32a key)

/-! ## kafka.go -/

/-- The Go struct `StaticPartitioner`. -/
structure StaticPartitioner where
  hash : Int
deriving DecidableEq, Repr

/-- The constructor `NewStaticPartitioner`. -/
def NewStaticPartitioner (hash : Int) : StaticPartitioner := ⟨hash⟩

/-- The method `StaticPartitioner.Partition`: `p.hash % numPartitions` on `int32`
(remainder of the truncated division); `none` is the division-by-zero panic.
The message argument is not used by the source and is left out. -/
def StaticPartitioner.Partition (p : StaticPartitioner) (numPartitions : Int) : Option Int :=
  if numPartitions = 0 then none else some (Int.tmod p.hash numPartitions)

/-! ## main.go: the hash of the partition key -/

/-- The loop of `main` over `utsname.Nodename` (an array of `int8`): the bytes before the first zero. -/
def nodenameBytes : List Int → Bytes
  | [] => []
  | b :: rest => if b = 0 then [] else (b % 256).toNat :: nodenameBytes rest

/-- Lines 111-128 of `main.go`, for a successful `Uname`: the pair of the final
`meta.partitionKey` and the value `int32(hash.Sum32())` handed to `NewKafkaBaseConfig`.
`hash.Write` is called in the `else` branch only. -/
def mainKeyHash (partitionKey : Bytes) (nodename : List Int) : Bytes × Int :=
  let hash := New32a
  if partitionKey = [] then
    (nodenameBytes nodename, toInt32 (Sum32 hash))
  else
    (partitionKey, toInt32 (Sum32 (fnvWrite hash partitionKey)))

/-- The partitioner that `main` installs through `NewKafkaBaseConfig`. -/
def mainPartitioner (partitionKey : Bytes) (nodename : List Int) : StaticPartitioner :=
  NewStaticPartitioner (mainKeyHash partitionKey nodename).2

/-! ## Library functions used by klog.go -/

/-- The error kinds of `strconv.NumError`. -/
inductive NumErr
  | invalid
  | outOfRange
deriving DecidableEq, Repr

/-- The digit loop of `strconv.ParseUint(s, 10, 64)`: a byte that is not a decimal
digit is a syntax error, an overflow of the unsigned 64-bit accumulator a range error,
whichever comes first from the left. -/
def parseUintLoop : Bytes → Nat → Except NumErr Nat
  | [], n => .ok n
  | c :: cs, n =>
    if 48 ≤ c ∧ c ≤ 57 then
      if n ≥ 1844674407370955162 then .error .outOfRange
      else if n * 10 + (c - 48) > 18446744073709551615 then .error .outOfRange
      else parseUintLoop cs (n * 10 + (c - 48))
    else .error .invalid

/-- The function `strconv.Atoi` for a 64-bit `int`: an optional sign, then at least
one decimal digit, nothing else; the value has to fit the type. -/
def Atoi (s : Bytes) : Except NumErr Int :=
  match s with
  | [] => .error .invalid
  | c :: cs =>
    let neg := c = 45
    let digits := if c = 43 ∨ c = 45 then cs else s
    match digits with
    | [] => .error .invalid
    | _ :: _ =>
      match parseUintLoop digits 0 with
      | .error e => .error e
      | .ok un =>
        if ¬ neg ∧ un ≥ 2 ^ 63 then .error .outOfRange
        else if neg ∧ un > 2 ^ 63 then .error .outOfRange
        else .ok (if neg then -(un : Int) else (un : Int))

/-- The function `strings.Split(s, sep)` for a one-byte separator: the pieces between
the separators, in order; one more piece than there are separators. -/
def Split (s : Bytes) (sep : Nat) : List Bytes :=
  match s with
  | [] => [[]]
  | b :: rest =>
    if b = sep then [] :: Split rest sep
    else
      match Split rest sep with
      | [] => [[b]]
      | piece :: pieces => (b :: piece) :: pieces

/-- The function `strings.Trim(s, cutset)` for an ASCII cutset: drop the leading and
the trailing bytes that belong to the cutset. -/
def Trim (s : Bytes) (cutset : Bytes) : Bytes :=
  ((s.dropWhile (fun b => decide (b ∈ cutset))).reverse.dropWhile
    (fun b => decide (b ∈ cutset))).reverse

/-! ## klog.go -/

/-- The table `FACILITY`. -/
def FACILITY : List Bytes :=
  [ ascii "kern", ascii "user", ascii "mail", ascii "daemon", ascii "auth", ascii "syslog",
    ascii "lpr", ascii "news",
    ascii "uucp", ascii "cron", ascii "authpriv", ascii "ftp", ascii "ntp", ascii "security",
    ascii "console", ascii "solaris-cron",
    ascii "local0", ascii "local1", ascii "local2", ascii "local3", ascii "local4",
    ascii "local5", ascii "local6", ascii "local7" ]

/-- The table `SEVERITY`. -/
def SEVERITY : List Bytes :=
  [ ascii "emerg", ascii "alert", ascii "crit", ascii "err", ascii "warning", ascii "notice",
    ascii "info", ascii "debug" ]

/-- The Go struct `klogmessage`; `readTimestamp` is the instant read from the clock,
a `nil` slice of labels is the empty list. -/
structure klogmessage where
  message : Bytes
  facility : Bytes
  severity : Bytes
  seq : Int
  labels : List Bytes
  readTimestamp : Nat
deriving DecidableEq, Repr

/-- The closure `hex2byte` of `messageDecode`, on bytes (arithmetic modulo 256). -/
def hex2byte (high low : Nat) : Nat :=
  let h := if high ≥ 65 then
      (if high ≥ 97 then (high + 256 - 97 + 10) % 256 else (high + 256 - 65 + 10) % 256)
    else (high + 256 - 48) % 256
  let l := if low ≥ 65 then
      (if low ≥ 97 then (low + 256 - 97 + 10) % 256 else (low + 256 - 65 + 10) % 256)
    else (low + 256 - 48) % 256
  ((h &&& 0xf) * 16 + (l &&& 0xf)) % 256

/-- The variables of the loop of `messageDecode`: the buffer and the two cursors. -/
structure DecodeState where
  data : Bytes
  ip : Nat
  op : Nat
deriving DecidableEq, Repr

/-- What one pass through the loop body of `messageDecode` does. -/
inductive LoopStep
  /-- The body reached `continue` with these variables. -/
  | next (s : DecodeState)
  /-- The body reached `return string(data[:op])` with these variables. -/
  | ret (s : DecodeState)
  /-- An index was out of range. -/
  | fault
deriving DecidableEq, Repr

/-- The assignment `data[i] = v` followed by the cursor update; out of range is a fault. -/
def storeAt (s : DecodeState) (v : Nat) (ip' : Nat) : LoopStep :=
  if s.op < s.data.length then .next ⟨s.data.set s.op v, ip', s.op + 1⟩ else .fault

/-- The body of the loop of `messageDecode` (lines 66-91), entered with `ip < len(data)`. -/
def decodeBody (s : DecodeState) : LoopStep :=
  match s.data[s.ip]? with
  | none => .fault
  | some cur =>
    if cur ≠ 92 ∨ s.ip + 1 ≥ s.data.length then
      if s.ip ≠ s.op then storeAt s cur (s.ip + 1)
      else .next ⟨s.data, s.ip + 1, s.op + 1⟩
    else if s.ip + 1 ≥ s.data.length then .ret s
    else
      match s.data[s.ip + 1]? with
      | none => .fault
      | some nxt =>
        if nxt = 92 then storeAt s 92 (s.ip + 2)
        else if nxt = 120 ∧ s.ip + 3 < s.data.length then
          match s.data[s.ip + 2]?, s.data[s.ip + 3]? with
          | some high, some low => storeAt s (hex2byte high low) (s.ip + 4)
          | _, _ => .fault
        else .ret s

/-- The loop of `messageDecode`, run for at most `fuel` passes: the variables at the
`return`, or `none` after a fault or when the passes are used up. -/
def decodeLoop : Nat → DecodeState → Option DecodeState
  | 0, _ => none
  | fuel + 1, s =>
    if s.ip < s.data.length then
      match decodeBody s with
      | .next s' => decodeLoop fuel s'
      | .ret s' => some s'
      | .fault => none
    else some s

/-- The function `messageDecode` together with the buffer it leaves behind: the pair
of the returned string `data[:op]` and the final contents of `data`. Every pass moves
`ip` forward, so `len(data) + 1` passes are enough. -/
def messageDecodeBuf (data : Bytes) : Option (Bytes × Bytes) :=
  (decodeLoop (data.length + 1) ⟨data, 0, 0⟩).map (fun s => (s.data.take s.op, s.data))

/-- The function `messageDecode`: the returned string, `none` for a run-time fault. -/
def messageDecode (data : Bytes) : Option Bytes :=
  (messageDecodeBuf data).map Prod.fst

/-- The index at which a loop `for i := 0; i < len(data); i++` with the test
`data[i] != c` breaks: the position of the first byte equal to `c`. -/
def scanFor (c : Nat) : Bytes → Option Nat
  | [] => none
  | b :: rest => if b ≠ c then (scanFor c rest).map (· + 1) else some 0

/-- The errors that `parse` returns, with the values formatted into the text. -/
inductive ParseError
  /-- The text "unhandled set of fields ... expected >= 4 fields, got %v\n%s\n%s\n". -/
  | malformedFields (got : Nat) (rawFields : Bytes) (data : Bytes)
  /-- The text "can't parse klog facility prefix in %s: %s". -/
  | badPriority (rawFields : Bytes) (num : Bytes) (err : NumErr)
  /-- The text "can't parse klog sequence number in %s: %s". -/
  | badSequence (rawFields : Bytes) (num : Bytes) (err : NumErr)
deriving DecidableEq, Repr

/-- The result of `parse`. -/
inductive ParseResult
  /-- The pair `(&result, nil)`. -/
  | ok (msg : klogmessage)
  /-- The pair `(nil, err)`. -/
  | err (e : ParseError)
  /-- A run-time fault. -/
  | fault
deriving DecidableEq, Repr

/-- Indexing of a table by a Go `int`: out of range is `none`. -/
def tableAt (table : List Bytes) (i : Int) : Option Bytes :=
  if 0 ≤ i then table[i.toNat]? else none

/-- Round one of `parse`, first loop (lines 102-109): `rawFields` and the remaining `data`. -/
def splitRawFields (data : Bytes) : Bytes × Bytes :=
  match scanFor 0x3b data with
  | some i => (data.take i, data.drop (i + 1))
  | none => ([], data)

/-- Round one of `parse`, second loop (lines 110-117): `message`, `rawLabels` and the
contents of `data` afterwards (`messageDecode` works in place on `data[0:i]`);
`none` for a run-time fault. -/
def splitMessage (data : Bytes) : Option (Bytes × Bytes × Bytes) :=
  match scanFor 0x0a data with
  | some i =>
    match messageDecodeBuf (data.take i) with
    | some (message, buf) =>
      let data' := buf ++ data.drop i
      some (message, data'.drop (i + 1), data')
    | none => none
  | none => some ([], [], data)

/-- Round three of `parse` (lines 153-159): the labels. -/
def parseLabels (rawLabels : Bytes) : List Bytes :=
  if rawLabels.length > 3 then
    (Split (Trim rawLabels [10, 32]) 10).map (fun entry => Trim entry [10, 32])
  else []

/-- The function `parse`; `now` is the value of `time.Now().UTC()`. -/
def parse (now : Nat) (data : Bytes) : ParseResult :=
  let (rawFields, data1) := splitRawFields data
  match splitMessage data1 with
  | none => .fault
  | some (message, rawLabels, data2) =>
    let fields := Split rawFields 44
    if fields.length < 4 then
      .err (.malformedFields fields.length rawFields data2)
    else
      match fields[0]?, fields[1]? with
      | some field0, some field1 =>
        match Atoi field0 with
        | .error e => .err (.badPriority rawFields field0 e)
        | .ok facilityPriority =>
          match tableAt SEVERITY (andInt facilityPriority 0x7) with
          | none => .fault
          | some severity =>
            let facility := Int.tdiv facilityPriority 8
            let facilityName :=
              if facility ≥ 0 ∧ facility < (FACILITY.length : Int) then tableAt FACILITY facility
              else some (ascii "<invalid>")
            match facilityName with
            | none => .fault
            | some facilityName =>
              match Atoi field1 with
              | .error e => .err (.badSequence rawFields field1 e)
              | .ok seq =>
                .ok { message := message, facility := facilityName, severity := severity,
                      seq := seq, labels := parseLabels rawLabels, readTimestamp := now }
      | _, _ => .fault

/-- One call of `kmsg.Read` in `klog`: the bytes `buffer[:bytes_read]` of one record,
together with the instant the clock shows when the record is parsed, or a failure. -/
inductive ReadResult
  | record (data : Bytes) (now : Nat)
  | failure (errno : Nat)
deriving DecidableEq, Repr

/-- The errors that `klog` returns: one from the device (`Klogctl`, `Open`, `Read`) or
the one from `parse`. -/
inductive KlogError
  | device (errno : Nat)
  | record (e : ParseError)
deriving DecidableEq, Repr

/-- How a run of `klog` ends: it returns an error, it stops on a run-time fault, or it
waits in `Read` for a record that the modelled device does not deliver. -/
inductive KlogEnd
  | returned (err : KlogError)
  | fault
  | blocked
deriving DecidableEq, Repr

/-- The reader loop of `klog` (lines 180-191) over the results of the successive calls
of `kmsg.Read`, with the messages sent on the channel so far: the messages sent in all,
and how the loop ends. -/
def klogLoop : List ReadResult → List klogmessage → List klogmessage × KlogEnd
  | [], sent => (sent, .blocked)
  | .failure errno :: _, sent => (sent, .returned (.device errno))
  | .record data now :: rest, sent =>
    match parse now data with
    | .ok msg => klogLoop rest (sent ++ [msg])
    | .err e => (sent, .returned (.record e))
    | .fault => (sent, .fault)

/-- The function `klog`: the two start-up calls (`Klogctl` for the buffer size, `os.Open`),
then the reader loop. -/
def klog (bufferSize : Except Nat Nat) (openKmsg : Except Nat Unit) (reads : List ReadResult) :
    List klogmessage × KlogEnd :=
  match bufferSize with
  | .error errno => ([], .returned (.device errno))
  | .ok _ =>
    match openKmsg with
    | .error errno => ([], .returned (.device errno))
    | .ok _ => klogLoop reads []

/-! ## main.go: the serializer -/

/-- The function `strconv.Itoa`: the decimal digits, after a minus sign for a negative value. -/
def Itoa (i : Int) : Bytes :=
  if i < 0 then 45 :: (Nat.toDigits 10 (-i).toNat).map Char.toNat
  else (Nat.toDigits 10 i.toNat).map Char.toNat

/-- The function `strings.ReplaceAll(s, old, repl)` for a one-byte `old`. -/
def ReplaceAll (s : Bytes) (old : Nat) (repl : Bytes) : Bytes :=
  match s with
  | [] => []
  | b :: rest => (if b = old then repl else [b]) ++ ReplaceAll rest old repl

/-- The first part of `jsonify` (lines 29-36): the opening text built from
`meta.extraLabels`. The list holds the entries of the Go map in the order in which the
`range` statement yields them; a `nil` map is the empty list. -/
def jsonifyOpening (extraLabels : List (Bytes × Bytes)) : Bytes :=
  if extraLabels.length > 0 then
    extraLabels.foldl
      (fun pre kv => pre ++ ascii "\"" ++ kv.1 ++ ascii "\":\"" ++ kv.2 ++ ascii "\",") [123]
  else [123]

/-- The loop over `msg.labels` in the closure of `jsonify` (lines 42-47), from index `i`
with the text `metadata` built so far. -/
def metadataLoop : List Bytes → Nat → Bytes → Bytes
  | [], _, metadata => metadata
  | label :: rest, i, metadata =>
    metadataLoop rest (i + 1)
      ((if i > 0 then metadata ++ ascii "," else metadata) ++ ascii "\"" ++ label ++ ascii "\"")

/-- The closure returned by `jsonify(meta)`, applied to `msg`. The function `marshal`
gives the bytes that `json.Marshal` returns for an instant (its error is dropped by the
source). -/
def jsonify (marshal : Nat → Bytes) (extraLabels : List (Bytes × Bytes)) (msg : klogmessage) :
    Bytes :=
  let opening := jsonifyOpening extraLabels
  let suffix : Bytes := [125]
  let metadata : Bytes :=
    if msg.labels.length > 0 then
      metadataLoop msg.labels 0 (ascii ",\"metadata\":[") ++ ascii "]"
    else []
  let timestamp := marshal msg.readTimestamp
  opening ++
    ascii "\"seq\":" ++ Itoa msg.seq ++ ascii "," ++
    ascii "\"facility\":\"" ++ msg.facility ++ ascii "\"," ++
    ascii "\"severity\":\"" ++ msg.severity ++ ascii "\"," ++
    ascii "\"message\":\"" ++ ReplaceAll msg.message 34 (ascii "\\\"") ++ ascii "\"," ++
    ascii "\"timestamp\":" ++ timestamp ++
    metadata ++
    suffix

/-! ## Notions used to state the properties -/

/-- The list view of `messageDecode`: what the two-cursor loop writes, token by token. -/
def decodeList : Bytes → Bytes
  | [] => []
  | [b] => [b]
  | b :: c :: rest =>
    if b ≠ 92 then b :: decodeList (c :: rest)
    else if c = 92 then 92 :: decodeList rest
    else if c = 120 ∧ 2 ≤ rest.length then
      hex2byte (rest.getD 0 0) (rest.getD 1 0) :: decodeList (rest.drop 2)
    else []
termination_by l => l.length
decreasing_by all_goals (simp; try omega)

/-- The value that `hex2byte` extracts from one of its two arguments. -/
def nibble (x : Nat) : Nat :=
  (if x ≥ 65 then (if x ≥ 97 then (x + 256 - 97 + 10) % 256 else (x + 256 - 65 + 10) % 256)
    else (x + 256 - 48) % 256) &&& 0xf

/-- A pass of the loop body that stores the byte `v` at `op` and moves `ip` over the
bytes `C`: the buffer keeps its tail `T`, and `data[:op+1]` is `data[:op]` followed by `v`. -/
def Advances (A C T : Bytes) (op v : Nat) : Prop :=
  ∃ A2 : Bytes, decodeBody ⟨A ++ (C ++ T), A.length, op⟩ = .next ⟨A2 ++ T, A2.length, op + 1⟩ ∧
    A2.length = A.length + C.length ∧ A2.take (op + 1) = A.take op ++ [v]

/-- The ASCII digit of a value below 16, with the letters in upper or in lower case. -/
def hexDigit (n : Nat) (upper : Bool) : Nat :=
  if n < 10 then 48 + n else if upper then 55 + n else 87 + n

/-- A byte that is one of `0-9`, `a-f`, `A-F`. -/
def isHexDigit (c : Nat) : Prop :=
  (48 ≤ c ∧ c ≤ 57) ∨ (97 ≤ c ∧ c ≤ 102) ∨ (65 ≤ c ∧ c ≤ 70)

/-- The text `e` is an escaped form of the byte string `s`: a backslash of `s` is written
as two backslashes, any byte below 256 may be written as backslash, `x` and its two
hexadecimal digits (each in either case), and any byte but the backslash may stand for
itself. -/
inductive Escapes : Bytes → Bytes → Prop
  | nil : Escapes [] []
  | literal (b : Nat) (e s : Bytes) : b ≠ 92 → Escapes e s → Escapes (b :: e) (b :: s)
  | backslash (e s : Bytes) : Escapes e s → Escapes (92 :: 92 :: e) (92 :: s)
  | hex (b : Nat) (u1 u2 : Bool) (e s : Bytes) : b < 256 → Escapes e s →
      Escapes (92 :: 120 :: hexDigit (b / 16) u1 :: hexDigit (b % 16) u2 :: e) (b :: s)

/-- A well-formed escaped text: a sequence of complete tokens, each a byte other than the
backslash, two backslashes, or backslash, `x` and two hexadecimal digits. -/
inductive WellFormed : Bytes → Prop
  | nil : WellFormed []
  | literal (b : Nat) (u : Bytes) : b ≠ 92 → WellFormed u → WellFormed (b :: u)
  | backslash (u : Bytes) : WellFormed u → WellFormed (92 :: 92 :: u)
  | hex (h l : Nat) (u : Bytes) : isHexDigit h → isHexDigit l → WellFormed u →
      WellFormed (92 :: 120 :: h :: l :: u)

/-- The value of a sequence of decimal digits, most significant first. -/
def digitsValue (ds : Bytes) : Nat := ds.foldl (fun n c => n * 10 + (c - 48)) 0

/-- The text `f` is a decimal numeral of the Go `int` value `v`: an optional sign and at
least one digit `0-9`, with a value that the 64-bit `int` holds. -/
def IsDecimal (f : Bytes) (v : Int) : Prop :=
  -2 ^ 63 ≤ v ∧ v < 2 ^ 63 ∧
  ∃ ds : Bytes, ds ≠ [] ∧ (∀ c ∈ ds, 48 ≤ c ∧ c ≤ 57) ∧
    ((f = ds ∧ v = (digitsValue ds : Int)) ∨ (f = 43 :: ds ∧ v = (digitsValue ds : Int)) ∨
      (f = 45 :: ds ∧ v = -(digitsValue ds : Int)))

/-- The states that the loop of `messageDecode` passes through on the input `data`. -/
inductive Reachable (data : Bytes) : DecodeState → Prop
  | start : Reachable data ⟨data, 0, 0⟩
  | step (s s' : DecodeState) : Reachable data s → s.ip < s.data.length →
      decodeBody s = .next s' → Reachable data s'

/-- A text between double quotes. -/
def quoted (s : Bytes) : Bytes := [34] ++ s ++ [34]

/-- The texts in order, with a comma between neighbours. -/
def commaSeparated : List Bytes → Bytes
  | [] => []
  | [x] => x
  | x :: y :: rest => x ++ [44] ++ commaSeparated (y :: rest)

/-- The entry of one static label in the serialized event: `"key":"value",`. -/
def labelEntry (kv : Bytes × Bytes) : Bytes := quoted kv.1 ++ [58] ++ quoted kv.2 ++ [44]

/-- The part of the serialized event that comes from the event itself, as the
specification words it: `seq`, `facility`, `severity`, `message` (every `"` replaced by
backslash and `"`), `timestamp`, then the `metadata` array exactly when there are
labels, then `}`. -/
def eventFields (marshal : Nat → Bytes) (event : klogmessage) : Bytes :=
  quoted (ascii "seq") ++ [58] ++ Itoa event.seq ++ [44] ++
    quoted (ascii "facility") ++ [58] ++ quoted event.facility ++ [44] ++
    quoted (ascii "severity") ++ [58] ++ quoted event.severity ++ [44] ++
    quoted (ascii "message") ++ [58] ++
      quoted ((event.message.map (fun b => if b = 34 then [92, 34] else [b])).flatten) ++ [44] ++
    quoted (ascii "timestamp") ++ [58] ++ marshal event.readTimestamp ++
    (if event.labels = [] then []
      else [44] ++ quoted (ascii "metadata") ++ [58, 91] ++
        commaSeparated (event.labels.map quoted) ++ [93]) ++
    [125]

/-- The canonical shape of the serialized event, as the specification words it: `{`, one
`"key":"value",` per static label, then the fields of the event. -/
def serializeSpec (marshal : Nat → Bytes) (staticLabels : List (Bytes × Bytes))
    (event : klogmessage) : Bytes :=
  [123] ++ (staticLabels.map labelEntry).flatten ++ eventFields marshal event

/-- Two results of `parse` agree but for the read instant of an event and for the raw
field text that an error quotes: events with equal `seq`, `facility`, `severity`,
`message` and `labels`, or errors of one kind for the same field and cause. -/
def sameOutcome : ParseResult → ParseResult → Prop
  | .ok a, .ok b =>
    a.seq = b.seq ∧ a.facility = b.facility ∧ a.severity = b.severity ∧
      a.message = b.message ∧ a.labels = b.labels
  | .err (.malformedFields n _ _), .err (.malformedFields n' _ _) => n = n'
  | .err (.badPriority _ num e), .err (.badPriority _ num' e') => num = num' ∧ e = e'
  | .err (.badSequence _ num e), .err (.badSequence _ num' e') => num = num' ∧ e = e'
  | _, _ => False

/-- The events that `klog` sends for a run of successful reads: the parsed record of
each read, in read order. -/
def parsedEvents (reads : List ReadResult) : List klogmessage :=
  reads.filterMap (fun r =>
    match r with
    | .record data now =>
      match parse now data with
      | .ok msg => some msg
      | _ => none
    | .failure _ => none)

/-! # Properties -/

/-! ## The partition of the run -/

/-- C1 fails on the code: the key `a` has the FNV-1a sum 3826002220, whose top bit is
set; `main` hands it over as the negative `int32` value -468965076, and for 5 partitions
`Partition` returns -1, outside `[0, 5)`. -/
theorem partition_negative_for_key_a :
    fnv1a32 (ascii "a") = 3826002220 ∧
    (mainKeyHash (ascii "a") []).2 = toInt32 (fnv1a32 (ascii "a")) ∧
    (mainKeyHash (ascii "a") []).2 = -468965076 ∧
    (mainPartitioner (ascii "a") []).Partition 5 = some (-1) := by
  decide

/-- C2 fails on the code: with no key supplied, the hosts `host-a` and `host-b` both get
the hash of the empty input (the offset basis as `int32`), although the FNV-1a sums of
the two node names differ; the node name becomes the partition key but is never hashed. -/
theorem nodename_not_hashed :
    mainKeyHash [] ((ascii "host-a").map Int.ofNat ++ List.replicate 59 0) =
      (ascii "host-a", -2128831035) ∧
    mainKeyHash [] ((ascii "host-b").map Int.ofNat ++ List.replicate 59 0) =
      (ascii "host-b", -2128831035) ∧
    toInt32 (fnv1a32 (ascii "host-a")) ≠ toInt32 (fnv1a32 (ascii "host-b")) ∧
    toInt32 (fnv1a32 (ascii "host-a")) ≠ -2128831035 := by
  decide

/-! ## The loop of `messageDecode` computes `decodeList` -/

theorem take_succ_set (X : Bytes) (op v : Nat) (h : op < X.length) :
    (X.set op v).take (op + 1) = X.take op ++ [v] := by
  induction X generalizing op with
  | nil => simp at h
  | cons x xs ih =>
    cases op with
    | zero => simp
    | succ n =>
      simp at h
      simp [ih n h]

theorem set_append_left (X T : Bytes) (op v : Nat) (h : op < X.length) :
    (X ++ T).set op v = X.set op v ++ T := by
  induction X generalizing op with
  | nil => simp at h
  | cons x xs ih =>
    cases op with
    | zero => simp
    | succ n =>
      simp at h
      simp [ih n h]

/-- One stored byte: the state after `data[op] = v` and moving `ip` over the bytes `C`. -/
theorem storeAt_spec (A C T : Bytes) (op v ip' : Nat) (hop : op ≤ A.length) (hC : C ≠ []) :
    storeAt ⟨A ++ C ++ T, A.length, op⟩ v ip' = .next ⟨(A ++ C).set op v ++ T, ip', op + 1⟩ := by
  have hlen : 0 < C.length := List.length_pos.mpr hC
  have h1 : op < (A ++ C).length := by simp; omega
  have h2 : op < (A ++ C ++ T).length := by simp; omega
  simp only [storeAt, h2, if_true, set_append_left _ _ _ _ h1]


theorem advances_of_store (A C T : Bytes) (op v : Nat) (hop : op ≤ A.length) (hC : C ≠ [])
    (h : decodeBody ⟨A ++ (C ++ T), A.length, op⟩ =
      storeAt ⟨A ++ C ++ T, A.length, op⟩ v (A.length + C.length)) :
    Advances A C T op v := by
  have hlen : 0 < C.length := List.length_pos.mpr hC
  have h1 : op < (A ++ C).length := by simp; omega
  refine ⟨(A ++ C).set op v, ?_, by simp, ?_⟩
  · rw [h, storeAt_spec A C T op v _ hop hC]; simp
  · rw [take_succ_set _ _ _ h1, List.take_append_of_le_length hop]

theorem getElem_opt_at (A B : Bytes) (k : Nat) : (A ++ B)[A.length + k]? = B[k]? := by
  rw [List.getElem?_append_right (by omega)]
  congr 1
  omega

theorem getElem_opt_at0 (A B : Bytes) : (A ++ B)[A.length]? = B[0]? := getElem_opt_at A B 0

theorem body_copy (A T : Bytes) (b op : Nat) (hop : op ≤ A.length) (hb : b ≠ 92 ∨ T = []) :
    Advances A [b] T op b := by
  have hcond : b ≠ 92 ∨ A.length + 1 ≥ (A ++ ([b] ++ T)).length := by
    rcases hb with hb | hb
    · exact Or.inl hb
    · subst hb; right; simp
  by_cases hne : A.length = op
  · refine ⟨A ++ [b], ?_, by simp, ?_⟩
    · simp only [decodeBody, getElem_opt_at0, List.singleton_append, List.getElem?_cons_zero, hcond,
        if_true]
      simp [hne]
      intro h1 h2
      rcases hb with hb | hb
      · exact absurd h1 hb
      · exact absurd hb h2
    · subst hne; simp
  · apply advances_of_store A [b] T op b hop (by simp)
    simp only [decodeBody, getElem_opt_at0, List.singleton_append, List.getElem?_cons_zero, hcond,
      if_true]
    simp [hne]
    intro h1 h2
    rcases hb with hb | hb
    · exact absurd h1 hb
    · exact absurd hb h2

theorem body_backslash (A T : Bytes) (op : Nat) (hop : op ≤ A.length) :
    Advances A [92, 92] T op 92 := by
  apply advances_of_store A [92, 92] T op 92 hop (by simp)
  simp only [decodeBody, getElem_opt_at0, getElem_opt_at]
  simp

theorem body_hex (A T : Bytes) (high low op : Nat) (hop : op ≤ A.length) :
    Advances A [92, 120, high, low] T op (hex2byte high low) := by
  apply advances_of_store A [92, 120, high, low] T op _ hop (by simp)
  simp only [decodeBody, getElem_opt_at0, getElem_opt_at]
  simp

theorem body_abort (A T : Bytes) (c op : Nat) (hc : c ≠ 92)
    (hx : c = 120 → T.length < 2) :
    decodeBody ⟨A ++ 92 :: c :: T, A.length, op⟩ = .ret ⟨A ++ 92 :: c :: T, A.length, op⟩ := by
  simp only [decodeBody, getElem_opt_at0, getElem_opt_at]
  by_cases h120 : c = 120
  · have := hx h120
    have h3 : ¬ (3 < T.length + 1 + 1) := by omega
    simp [hc, h120, h3]
  · simp [hc, h120]

theorem decodeLoop_next (fuel : Nat) (s s' : DecodeState) (hlt : s.ip < s.data.length)
    (h : decodeBody s = .next s') : decodeLoop (fuel + 1) s = decodeLoop fuel s' := by
  simp [decodeLoop, hlt, h]

theorem decodeLoop_ret (fuel : Nat) (s s' : DecodeState) (hlt : s.ip < s.data.length)
    (h : decodeBody s = .ret s') : decodeLoop (fuel + 1) s = some s' := by
  simp [decodeLoop, hlt, h]

theorem decodeLoop_spec (fuel : Nat) : ∀ (A B : Bytes) (op : Nat), op ≤ A.length →
    B.length < fuel →
    ∃ s', decodeLoop fuel ⟨A ++ B, A.length, op⟩ = some s' ∧
      s'.data.length = (A ++ B).length ∧
      s'.data.take s'.op = A.take op ++ decodeList B := by
  induction fuel with
  | zero => intro A B op _ h; omega
  | succ fuel ih =>
    intro A B op hop hfuel
    have step : ∀ (C T : Bytes) (v : Nat), B = C ++ T → C ≠ [] → Advances A C T op v →
        decodeList B = v :: decodeList T →
        ∃ s', decodeLoop (fuel + 1) ⟨A ++ B, A.length, op⟩ = some s' ∧
          s'.data.length = (A ++ B).length ∧
          s'.data.take s'.op = A.take op ++ decodeList B := by
      intro C T v hB hC hadv hdec
      obtain ⟨A2, hbody, hlen, htake⟩ := hadv
      have hClen : 0 < C.length := List.length_pos.mpr hC
      have hT : T.length < fuel := by
        have : B.length = C.length + T.length := by rw [hB]; simp
        omega
      obtain ⟨s', hs', hl', ht'⟩ := ih A2 T (op + 1) (by omega) hT
      refine ⟨s', ?_, ?_, ?_⟩
      · rw [hB, decodeLoop_next fuel _ _ (by simp; omega) hbody]
        exact hs'
      · rw [hl', hB]; simp [hlen]; omega
      · rw [ht', htake, hdec]; simp
    match B, hfuel, step with
    | [], _, _ =>
      refine ⟨⟨A ++ [], A.length, op⟩, ?_, rfl, ?_⟩
      · simp [decodeLoop]
      · simp [decodeList, List.take_append_of_le_length hop]
    | [b], _, step =>
      exact step [b] [] b rfl (by simp) (body_copy A [] b op hop (Or.inr rfl)) (by simp [decodeList])
    | b :: c :: T, _, step =>
      by_cases hb : b = 92
      · subst hb
        by_cases hc : c = 92
        · subst hc
          exact step [92, 92] T 92 rfl (by simp) (body_backslash A T op hop)
            (by rw [decodeList]; simp)
        · by_cases hx : c = 120 ∧ 2 ≤ T.length
          · obtain ⟨hx, hlen⟩ := hx
            subst hx
            match T, hlen, step with
            | high :: low :: T', _, step =>
              exact step [92, 120, high, low] T' _ rfl (by simp) (body_hex A T' high low op hop)
                (by rw [decodeList]; simp)
          · refine ⟨⟨A ++ 92 :: c :: T, A.length, op⟩, ?_, rfl, ?_⟩
            · apply decodeLoop_ret
              · simp
              · exact body_abort A T c op hc (by intro h; by_contra h2; exact hx ⟨h, by omega⟩)
            · rw [decodeList.eq_3]
              simp [hc, hx, List.take_append_of_le_length hop]
      · exact step [b] (c :: T) b rfl (by simp) (body_copy A (c :: T) b op hop (Or.inl hb))
          (by rw [decodeList]; simp [hb])

theorem messageDecodeBuf_eq (data : Bytes) :
    ∃ buf, messageDecodeBuf data = some (decodeList data, buf) ∧ buf.length = data.length := by
  obtain ⟨s', h1, h2, h3⟩ := decodeLoop_spec (data.length + 1) [] data 0 (by simp) (by omega)
  refine ⟨s'.data, ?_, by simpa using h2⟩
  simp only [List.nil_append, List.length_nil] at h1
  simp [messageDecodeBuf, h1, h3]

theorem messageDecode_eq (data : Bytes) : messageDecode data = some (decodeList data) := by
  obtain ⟨buf, h, _⟩ := messageDecodeBuf_eq data
  simp [messageDecode, h]

/-! ## Token by token -/

theorem decodeList_literal (b : Nat) (X : Bytes) (hb : b ≠ 92) :
    decodeList (b :: X) = b :: decodeList X := by
  cases X with
  | nil => simp [decodeList]
  | cons c T => rw [decodeList]; simp [hb]

theorem decodeList_backslash (X : Bytes) : decodeList (92 :: 92 :: X) = 92 :: decodeList X := by
  rw [decodeList]; simp

theorem decodeList_hex (h l : Nat) (X : Bytes) :
    decodeList (92 :: 120 :: h :: l :: X) = hex2byte h l :: decodeList X := by
  rw [decodeList]; simp

theorem decodeList_abort (c : Nat) (X : Bytes) (hc : c ≠ 92) (hx : c = 120 → X.length < 2) :
    decodeList (92 :: c :: X) = [] := by
  rw [decodeList]
  have : ¬ (c = 120 ∧ 2 ≤ X.length) := by
    rintro ⟨h1, h2⟩
    have := hx h1
    omega
  simp [hc, this]

theorem hex2byte_eq (high low : Nat) :
    hex2byte high low = (nibble high * 16 + nibble low) % 256 := rfl

theorem nibble_hexDigit : ∀ n, n < 16 → ∀ u : Bool, nibble (hexDigit n u) = n := by
  decide

theorem hex2byte_hexDigit (b : Nat) (hb : b < 256) (u1 u2 : Bool) :
    hex2byte (hexDigit (b / 16) u1) (hexDigit (b % 16) u2) = b := by
  rw [hex2byte_eq, nibble_hexDigit _ (by omega), nibble_hexDigit _ (by omega)]
  omega

theorem decodeList_escapes (e s : Bytes) (h : Escapes e s) : decodeList e = s := by
  induction h with
  | nil => simp [decodeList]
  | literal b e s hb _ ih => rw [decodeList_literal b e hb, ih]
  | backslash e s _ ih => rw [decodeList_backslash, ih]
  | hex b u1 u2 e s hb _ ih => rw [decodeList_hex, hex2byte_hexDigit b hb, ih]

theorem decodeList_truncate (u X : Bytes) (hu : WellFormed u) (hX : decodeList X = []) :
    decodeList (u ++ X) = decodeList u := by
  induction hu with
  | nil => simp [hX, decodeList]
  | literal b u hb _ ih =>
    rw [List.cons_append, decodeList_literal b _ hb, decodeList_literal b _ hb, ih]
  | backslash u _ ih =>
    simp only [List.cons_append]
    rw [decodeList_backslash, decodeList_backslash, ih]
  | hex h l u _ _ _ ih =>
    simp only [List.cons_append]
    rw [decodeList_hex, decodeList_hex, ih]

/-- C9. Escape round trip: when `e` is an escaped form of the byte string `s` (every
backslash of `s` doubled or written `\x5c`/`\x5C`, every other byte literal or written as
backslash, `x` and its two hexadecimal digits in either case), `messageDecode e` returns
exactly `s`. -/
theorem messageDecode_escapes (e s : Bytes) (h : Escapes e s) : messageDecode e = some s := by
  rw [messageDecode_eq, decodeList_escapes e s h]

/-- The claimed instances of C9: `a\\b` decodes to `a\b`, and `a\x41b` to `aAb`. -/
theorem messageDecode_escapes_witness :
    messageDecode [97, 92, 92, 98] = some [97, 92, 98] ∧
    messageDecode [97, 92, 120, 52, 49, 98] = some (ascii "aAb") :=
  ⟨messageDecode_escapes _ _
      (.literal 97 _ _ (by decide) (.backslash _ _ (.literal 98 _ _ (by decide) .nil))),
   messageDecode_escapes _ _
      (.literal 97 _ _ (by decide)
        (.hex 65 false false _ _ (by decide) (.literal 98 _ _ (by decide) .nil)))⟩

/-- C10. Truncation on an unknown escape: after a well-formed escaped text `u`, a backslash
followed by a byte `c` other than backslash and `x` ends the decoding, whatever follows:
the result is that of `u` alone; so does backslash, `x` with fewer than two bytes left.
The function returns a string in each case, it does not fail. -/
theorem messageDecode_truncates (u : Bytes) (hu : WellFormed u) :
    (∀ c r, c ≠ 92 → c ≠ 120 → messageDecode (u ++ [92, c] ++ r) = messageDecode u) ∧
    (∀ t : Bytes, t.length < 2 → messageDecode (u ++ [92, 120] ++ t) = messageDecode u) ∧
    (∃ out, messageDecode u = some out) := by
  refine ⟨?_, ?_, ⟨decodeList u, messageDecode_eq u⟩⟩
  · intro c r hc hx
    rw [messageDecode_eq, messageDecode_eq, List.append_assoc]
    exact congrArg some
      (decodeList_truncate u _ hu (decodeList_abort c r hc (fun h => absurd h hx)))
  · intro t ht
    rw [messageDecode_eq, messageDecode_eq, List.append_assoc]
    exact congrArg some
      (decodeList_truncate u _ hu (decodeList_abort 120 t (by decide) (fun _ => ht)))

/-- The claimed instance of C10: `a\qb` decodes to `a`. -/
theorem messageDecode_truncates_witness :
    messageDecode [97, 92, 113, 98] = some [97] ∧
    messageDecode [97, 92, 120, 52] = some [97] :=
  ⟨((messageDecode_truncates [97] (.literal 97 _ (by decide) .nil)).1 113 [98]
      (by decide) (by decide)).trans (by decide),
   ((messageDecode_truncates [97] (.literal 97 _ (by decide) .nil)).2.1 [52]
      (by decide)).trans (by decide)⟩


/-! ## `strconv.Atoi` on decimal numerals -/

theorem foldl_digits_ge (ds : Bytes) (n : Nat) :
    n ≤ ds.foldl (fun n c => n * 10 + (c - 48)) n := by
  induction ds generalizing n with
  | nil => simp
  | cons c cs ih =>
    simp only [List.foldl_cons]
    have := ih (n * 10 + (c - 48))
    omega

theorem parseUintLoop_digits (ds : Bytes) (n : Nat) (hd : ∀ c ∈ ds, 48 ≤ c ∧ c ≤ 57)
    (hv : ds.foldl (fun n c => n * 10 + (c - 48)) n ≤ 18446744073709551615) :
    parseUintLoop ds n = .ok (ds.foldl (fun n c => n * 10 + (c - 48)) n) := by
  induction ds generalizing n with
  | nil => simp [parseUintLoop]
  | cons c cs ih =>
    simp only [List.foldl_cons] at hv ⊢
    have hc := hd c (by simp)
    have hge := foldl_digits_ge cs (n * 10 + (c - 48))
    have h1 : ¬ (n ≥ 1844674407370955162) := by omega
    have h2 : ¬ (n * 10 + (c - 48) > 18446744073709551615) := by omega
    simp only [parseUintLoop, hc, and_self, if_true, h1, h2, if_false]
    exact ih _ (fun c' hc' => hd c' (by simp [hc'])) hv

theorem Atoi_decimal (f : Bytes) (v : Int) (h : IsDecimal f v) : Atoi f = .ok v := by
  obtain ⟨hlo, hhi, ds, hne, hd, hcase⟩ := h
  obtain ⟨c, cs, rfl⟩ := List.exists_cons_of_ne_nil hne
  have hc := hd c (by simp)
  have hval : digitsValue (c :: cs) ≤ 18446744073709551615 := by
    rcases hcase with ⟨_, hv⟩ | ⟨_, hv⟩ | ⟨_, hv⟩ <;> omega
  have hloop : parseUintLoop (c :: cs) 0 = .ok (digitsValue (c :: cs)) :=
    parseUintLoop_digits (c :: cs) 0 hd hval
  rcases hcase with ⟨rfl, hv⟩ | ⟨rfl, hv⟩ | ⟨rfl, hv⟩
  · have h43 : c ≠ 43 := by omega
    have h45 : c ≠ 45 := by omega
    have hr : ¬ (2 ^ 63 ≤ digitsValue (c :: cs)) := by omega
    simp [Atoi, h43, h45, hloop, hv]
    omega
  · have hr : ¬ (2 ^ 63 ≤ digitsValue (c :: cs)) := by omega
    simp [Atoi, hloop, hv]
    omega
  · have hr : ¬ (2 ^ 63 < digitsValue (c :: cs)) := by omega
    simp [Atoi, hloop, hv]
    omega

/-! ## The rounds of `parse` -/

theorem scanFor_found (c : Nat) (F R : Bytes) (hF : c ∉ F) :
    scanFor c (F ++ c :: R) = some F.length := by
  induction F with
  | nil => simp [scanFor]
  | cons b F ih =>
    have hb : b ≠ c := fun h => hF (by simp [h])
    have hF2 : c ∉ F := fun h => hF (by simp [h])
    simp [scanFor, hb, ih hF2]

theorem scanFor_none (c : Nat) (D : Bytes) (hD : c ∉ D) : scanFor c D = none := by
  induction D with
  | nil => simp [scanFor]
  | cons b D ih =>
    have hb : b ≠ c := fun h => hD (by simp [h])
    have hD2 : c ∉ D := fun h => hD (by simp [h])
    simp [scanFor, hb, ih hD2]

theorem splitRawFields_found (F R : Bytes) (hF : 59 ∉ F) :
    splitRawFields (F ++ 59 :: R) = (F, R) := by
  simp [splitRawFields, scanFor_found 59 F R hF]

theorem splitRawFields_none (D : Bytes) (hD : 59 ∉ D) : splitRawFields D = ([], D) := by
  simp [splitRawFields, scanFor_none 59 D hD]

theorem splitMessage_found (M L : Bytes) (hM : 10 ∉ M) :
    ∃ buf, splitMessage (M ++ 10 :: L) = some (decodeList M, L, buf ++ 10 :: L) ∧
      buf.length = M.length := by
  obtain ⟨buf, hbuf, hlen⟩ := messageDecodeBuf_eq M
  refine ⟨buf, ?_, hlen⟩
  simp [splitMessage, scanFor_found 10 M L hM, hbuf, ← hlen]

theorem splitMessage_total (D : Bytes) : ∃ m l d, splitMessage D = some (m, l, d) := by
  unfold splitMessage
  cases scanFor 10 D with
  | none => exact ⟨_, _, _, rfl⟩
  | some i =>
    obtain ⟨buf, hbuf, _⟩ := messageDecodeBuf_eq (D.take i)
    simp [hbuf]

theorem andInt_seven (p : Int) : andInt p 0x7 = p % 8 := by
  have h7 : bits64 0x7 = 2 ^ 3 - 1 := by decide
  unfold andInt
  rw [h7, Nat.and_pow_two_sub_one_eq_mod]
  unfold ofBits64 bits64
  have h : ((p % 2 ^ 64).toNat % 2 ^ 3 : Nat) = (p % 8).toNat := by omega
  rw [h]
  split <;> omega

theorem severity_some (p : Int) :
    tableAt SEVERITY (andInt p 0x7) = SEVERITY[(p % 8).toNat]? ∧
      ∃ sev, SEVERITY[(p % 8).toNat]? = some sev := by
  rw [andInt_seven]
  have h0 : 0 ≤ p % 8 := by omega
  have hlt : (p % 8).toNat < SEVERITY.length := by
    have : SEVERITY.length = 8 := by decide
    omega
  refine ⟨by simp [tableAt, h0], SEVERITY[(p % 8).toNat], ?_⟩
  exact List.getElem?_eq_getElem hlt


theorem facility_some (p : Int) :
    ∃ fac, (if Int.tdiv p 8 ≥ 0 ∧ Int.tdiv p 8 < (FACILITY.length : Int)
      then tableAt FACILITY (Int.tdiv p 8) else some (ascii "<invalid>")) = some fac := by
  split
  · rename_i h
    have hlt : (Int.tdiv p 8).toNat < FACILITY.length := by omega
    exact ⟨FACILITY[(Int.tdiv p 8).toNat], by simp [tableAt, h.1, List.getElem?_eq_getElem hlt]⟩
  · exact ⟨_, rfl⟩

/-- The result of `parse` on a record with a `;`, at least 4 fields and a priority
that converts: the sequence number decides between the error and the event. -/
theorem parse_fields (now : Nat) (F R : Bytes) (f0 f1 : Bytes) (rest : List Bytes) (p : Int)
    (hF : 59 ∉ F) (hfields : Split F 44 = f0 :: f1 :: rest) (hrest : 2 ≤ rest.length)
    (hp : Atoi f0 = .ok p) :
    ∃ m l d sev fac, splitMessage R = some (m, l, d) ∧
      tableAt SEVERITY (andInt p 0x7) = some sev ∧
      (if Int.tdiv p 8 ≥ 0 ∧ Int.tdiv p 8 < (FACILITY.length : Int)
        then tableAt FACILITY (Int.tdiv p 8) else some (ascii "<invalid>")) = some fac ∧
      parse now (F ++ 59 :: R) =
        match Atoi f1 with
        | .error e => .err (.badSequence F f1 e)
        | .ok s => .ok ⟨m, fac, sev, s, parseLabels l, now⟩ := by
  obtain ⟨m, l, d, hsm⟩ := splitMessage_total R
  obtain ⟨hsev, sev, hsev2⟩ := severity_some p
  obtain ⟨fac, hfac⟩ := facility_some p
  refine ⟨m, l, d, sev, fac, hsm, hsev.trans hsev2, hfac, ?_⟩
  have hlen : ¬ ((f0 :: f1 :: rest).length < 4) := by simp; omega
  simp only [parse, splitRawFields_found F R hF, hsm, hfields, hlen, if_false,
    List.getElem?_cons_zero, List.getElem?_cons_succ, hp, hsev.trans hsev2, hfac]

/-! ## The record codec -/

/-- C3. A record `F;M\nL` whose field text `F` has no `;` and splits on `,` into at
least 4 fields, the first two of which are decimal numerals of integers `p >= 0` and `s`,
and whose message text `M` has no newline, parses: the event has `seq = s` and its
message is `messageDecode(M)`; a `;` inside `M` is allowed and stays in the message. -/
theorem parse_record (now : Nat) (F M L f0 f1 : Bytes) (rest : List Bytes) (p s : Int)
    (hF : 59 ∉ F) (hfields : Split F 44 = f0 :: f1 :: rest) (hrest : 2 ≤ rest.length)
    (hp : IsDecimal f0 p) (_hp0 : 0 ≤ p) (hs : IsDecimal f1 s) (hM : 10 ∉ M) :
    ∃ msg, parse now (F ++ [59] ++ M ++ [10] ++ L) = .ok msg ∧ msg.seq = s ∧
      messageDecode M = some msg.message := by
  obtain ⟨m, l, d, sev, fac, hsm, _, _, hparse⟩ :=
    parse_fields now F (M ++ 10 :: L) f0 f1 rest p hF hfields hrest (Atoi_decimal f0 p hp)
  obtain ⟨buf, hfound, _⟩ := splitMessage_found M L hM
  rw [hfound] at hsm
  simp only [Option.some.injEq, Prod.mk.injEq] at hsm
  obtain ⟨hm, _, _⟩ := hsm
  have hshape : F ++ [59] ++ M ++ [10] ++ L = F ++ 59 :: (M ++ 10 :: L) := by simp
  rw [hshape, hparse, Atoi_decimal f1 s hs]
  exact ⟨_, rfl, rfl, by rw [messageDecode_eq, hm]⟩

/-- The scenario of C3: the out-of-memory record decodes to sequence 1234, facility
`kern`, severity `info`, its message and the single label; a `;` in the message stays. -/
theorem parse_record_witness :
    parse 0 (ascii "6,1234,111111,-;Out of memory: Kill process 1234\nSUBSYSTEM=vmalloc\n") =
      .ok ⟨ascii "Out of memory: Kill process 1234", ascii "kern", ascii "info", 1234,
        [ascii "SUBSYSTEM=vmalloc"], 0⟩ ∧
    (∃ msg, parse 0 (ascii "6,1234,111111,-" ++ [59] ++ ascii "Out of memory: Kill process 1234"
        ++ [10] ++ ascii "SUBSYSTEM=vmalloc\n") = .ok msg ∧ msg.seq = 1234 ∧
      messageDecode (ascii "Out of memory: Kill process 1234") = some msg.message) ∧
    (∃ msg, parse 0 (ascii "6,1234,111111,-" ++ [59] ++ ascii "a;b" ++ [10] ++ []) = .ok msg ∧
      msg.seq = 1234 ∧ messageDecode (ascii "a;b") = some msg.message) :=
  ⟨by decide,
   parse_record 0 (ascii "6,1234,111111,-") (ascii "Out of memory: Kill process 1234")
    (ascii "SUBSYSTEM=vmalloc\n") (ascii "6") (ascii "1234") [ascii "111111", ascii "-"] 6 1234
    (by decide) (by decide) (by decide)
    ⟨by decide, by decide, ascii "6", by decide, by decide, Or.inl ⟨rfl, by decide⟩⟩
    (by decide)
    ⟨by decide, by decide, ascii "1234", by decide, by decide, Or.inl ⟨rfl, by decide⟩⟩
    (by decide),
   parse_record 0 (ascii "6,1234,111111,-") (ascii "a;b") [] (ascii "6") (ascii "1234")
    [ascii "111111", ascii "-"] 6 1234
    (by decide) (by decide) (by decide)
    ⟨by decide, by decide, ascii "6", by decide, by decide, Or.inl ⟨rfl, by decide⟩⟩
    (by decide)
    ⟨by decide, by decide, ascii "1234", by decide, by decide, Or.inl ⟨rfl, by decide⟩⟩
    (by decide)⟩

/-- C4. For a well-formed record (a `;`, at least 4 fields, priority and sequence
convert) with a priority `p >= 0`, the event has severity `SEVERITY[p mod 8]`, facility
`FACILITY[p div 8]` when `p div 8 < 24` and `"<invalid>"` otherwise; for `p <= 191` the
facility is the table entry and not the sentinel. -/
theorem parse_classification (now : Nat) (F R f0 f1 : Bytes) (rest : List Bytes) (p s : Int)
    (hF : 59 ∉ F) (hfields : Split F 44 = f0 :: f1 :: rest) (hrest : 2 ≤ rest.length)
    (hp : Atoi f0 = .ok p) (hp0 : 0 ≤ p) (hs : Atoi f1 = .ok s) :
    ∃ msg, parse now (F ++ 59 :: R) = .ok msg ∧
      SEVERITY[(p % 8).toNat]? = some msg.severity ∧
      (p / 8 < 24 → FACILITY[(p / 8).toNat]? = some msg.facility) ∧
      (24 ≤ p / 8 → msg.facility = ascii "<invalid>") ∧
      (p ≤ 191 → FACILITY[(p / 8).toNat]? = some msg.facility ∧
        msg.facility ≠ ascii "<invalid>") := by
  obtain ⟨m, l, d, sev, fac, _, hsev, hfac, hparse⟩ :=
    parse_fields now F R f0 f1 rest p hF hfields hrest hp
  rw [hs] at hparse
  have hdiv : Int.tdiv p 8 = p / 8 := Int.tdiv_eq_ediv hp0 (by decide)
  have hlenF : (FACILITY.length : Int) = 24 := by decide
  rw [hdiv, hlenF] at hfac
  have hq0 : 0 ≤ p / 8 := by omega
  have hlow : p / 8 < 24 → FACILITY[(p / 8).toNat]? = some fac := by
    intro h
    rw [if_pos ⟨hq0, h⟩] at hfac
    simpa [tableAt, hq0] using hfac
  have hnot : ∀ k, k < 24 → FACILITY[k]? ≠ some (ascii "<invalid>") := by decide
  refine ⟨_, hparse, ?_, hlow, ?_, ?_⟩
  · rw [← (severity_some p).1]; exact hsev
  · intro h
    rw [if_neg (by omega)] at hfac
    exact (Option.some.inj hfac).symm
  · intro h
    have hlt : p / 8 < 24 := by omega
    refine ⟨hlow hlt, ?_⟩
    intro heq
    have := hlow hlt
    rw [show fac = ascii "<invalid>" from heq] at this
    exact hnot (p / 8).toNat (by omega) this

/-- An instance of C4: priority 30 is facility 3 (`daemon`), severity 6 (`info`). -/
theorem parse_classification_witness :
    ∃ msg, parse 0 (ascii "30,7,0,-" ++ 59 :: ascii "m\n") = .ok msg ∧
      SEVERITY[((30 : Int) % 8).toNat]? = some msg.severity ∧
      ((30 : Int) / 8 < 24 → FACILITY[((30 : Int) / 8).toNat]? = some msg.facility) ∧
      (24 ≤ (30 : Int) / 8 → msg.facility = ascii "<invalid>") ∧
      ((30 : Int) ≤ 191 → FACILITY[((30 : Int) / 8).toNat]? = some msg.facility ∧
        msg.facility ≠ ascii "<invalid>") :=
  parse_classification 0 (ascii "30,7,0,-") (ascii "m\n") (ascii "30") (ascii "7")
    [ascii "0", ascii "-"] 30 7 (by decide) (by decide) (by decide) rfl (by decide) rfl

theorem fields_cases (F : Bytes) :
    (Split F 44).length < 4 ∨
      ∃ f0 f1 rest, Split F 44 = f0 :: f1 :: rest ∧ 2 ≤ rest.length := by
  match h : Split F 44 with
  | [] => left; simp
  | [_] => left; simp
  | f0 :: f1 :: rest =>
    by_cases hr : 2 ≤ rest.length
    · right; exact ⟨f0, f1, rest, rfl, hr⟩
    · left; simp; omega

theorem parse_too_few (now : Nat) (F R : Bytes) (hF : 59 ∉ F) (hlen : (Split F 44).length < 4) :
    ∃ d, parse now (F ++ 59 :: R) = .err (.malformedFields (Split F 44).length F d) := by
  obtain ⟨m, l, d, hsm⟩ := splitMessage_total R
  exact ⟨d, by simp [parse, splitRawFields_found F R hF, hsm, hlen]⟩

theorem parse_no_semicolon (now : Nat) (D : Bytes) (hD : 59 ∉ D) :
    ∃ d, parse now D = .err (.malformedFields 1 [] d) := by
  obtain ⟨m, l, d, hsm⟩ := splitMessage_total D
  exact ⟨d, by simp [parse, splitRawFields_none D hD, hsm, Split]⟩

theorem parse_priority_error (now : Nat) (F R f0 f1 : Bytes) (rest : List Bytes) (e : NumErr)
    (hF : 59 ∉ F) (hfields : Split F 44 = f0 :: f1 :: rest) (hrest : 2 ≤ rest.length)
    (hp : Atoi f0 = .error e) :
    parse now (F ++ 59 :: R) = .err (.badPriority F f0 e) := by
  obtain ⟨m, l, d, hsm⟩ := splitMessage_total R
  have hlen : ¬ ((f0 :: f1 :: rest).length < 4) := by simp; omega
  simp only [parse, splitRawFields_found F R hF, hsm, hfields, hlen, if_false,
    List.getElem?_cons_zero, List.getElem?_cons_succ, hp]

/-- C5. With `F` the text before the first `;` of the record (the empty text when the
record has no `;`), `parse` fails with the error "expected >= 4 fields" exactly when `F`
splits on `,` into fewer than 4 fields, whatever the priority and sequence fields hold. -/
theorem parse_malformedFields (now : Nat) (data F : Bytes)
    (hdata : (∃ R, data = F ++ 59 :: R ∧ 59 ∉ F) ∨ (59 ∉ data ∧ F = [])) :
    (∃ n rf d, parse now data = .err (.malformedFields n rf d)) ↔ (Split F 44).length < 4 := by
  rcases hdata with ⟨R, rfl, hF⟩ | ⟨hD, rfl⟩
  · constructor
    · rintro ⟨n, rf, d, h⟩
      rcases fields_cases F with hlt | ⟨f0, f1, rest, hfields, hrest⟩
      · exact hlt
      · exfalso
        cases hp : Atoi f0 with
        | error e =>
          rw [parse_priority_error now F R f0 f1 rest e hF hfields hrest hp] at h
          simp at h
        | ok p =>
          obtain ⟨m, l, d', sev, fac, _, _, _, hparse⟩ :=
            parse_fields now F R f0 f1 rest p hF hfields hrest hp
          rw [hparse] at h
          cases hs : Atoi f1 <;> simp [hs] at h
    · intro hlt
      obtain ⟨d, h⟩ := parse_too_few now F R hF hlt
      exact ⟨_, _, _, h⟩
  · constructor
    · intro _
      decide
    · intro _
      obtain ⟨d, h⟩ := parse_no_semicolon now data hD
      exact ⟨_, _, _, h⟩

/-- The scenarios of C5: `6,1234;msg` followed by a newline has two fields and is
rejected, and so is a record without `;`. -/
theorem parse_malformedFields_witness :
    (∃ n rf d, parse 0 (ascii "6,1234;msg\n") = .err (.malformedFields n rf d)) ∧
    (∃ n rf d, parse 0 (ascii "6,1234,111111,-") = .err (.malformedFields n rf d)) :=
  ⟨(parse_malformedFields 0 (ascii "6,1234;msg\n") (ascii "6,1234")
      (Or.inl ⟨ascii "msg\n", by decide, by decide⟩)).mpr (by decide),
   (parse_malformedFields 0 (ascii "6,1234,111111,-") []
      (Or.inr ⟨by decide, rfl⟩)).mpr (by decide)⟩

/-- C6, as the code has it: a record with a `;` and at least 4 fields fails with the
bad-priority error exactly when `strconv.Atoi` rejects field 0; a field that holds a
negative number converts, so the record is not rejected for its priority. -/
theorem parse_badPriority (now : Nat) (F R f0 f1 : Bytes) (rest : List Bytes)
    (hF : 59 ∉ F) (hfields : Split F 44 = f0 :: f1 :: rest) (hrest : 2 ≤ rest.length) :
    (∃ rf num e, parse now (F ++ 59 :: R) = .err (.badPriority rf num e)) ↔
      ∃ e, Atoi f0 = .error e := by
  constructor
  · rintro ⟨rf, num, e, h⟩
    cases hp : Atoi f0 with
    | error e' => exact ⟨e', rfl⟩
    | ok p =>
      exfalso
      obtain ⟨m, l, d', sev, fac, _, _, _, hparse⟩ :=
        parse_fields now F R f0 f1 rest p hF hfields hrest hp
      rw [hparse] at h
      cases hs : Atoi f1 <;> simp [hs] at h
  · rintro ⟨e, hp⟩
    exact ⟨_, _, _, parse_priority_error now F R f0 f1 rest e hF hfields hrest hp⟩

/-- An instance of C6 as amended: a priority field that is not a number is rejected. -/
theorem parse_badPriority_witness :
    ∃ rf num e, parse 0 (ascii "x6,1234,111111,-" ++ 59 :: ascii "msg\n") =
      .err (.badPriority rf num e) :=
  (parse_badPriority 0 (ascii "x6,1234,111111,-") (ascii "msg\n") (ascii "x6") (ascii "1234")
    [ascii "111111", ascii "-"] (by decide) (by decide) (by decide)).mpr ⟨.invalid, rfl⟩

/-- C6 as stated fails: the priority field `-6` is a negative number, and the record is
decoded (severity `crit`, facility `kern`) instead of being rejected. -/
theorem negative_priority_is_decoded :
    Atoi (ascii "-6") = .ok (-6) ∧
    parse 0 (ascii "-6,1234,111111,-;msg\n") =
      .ok ⟨ascii "msg", ascii "kern", ascii "crit", 1234, [], 0⟩ ∧
    ¬ ∃ rf num e, parse 0 (ascii "-6,1234,111111,-;msg\n") = .err (.badPriority rf num e) :=
  ⟨rfl, by decide, by
    rintro ⟨rf, num, e, h⟩
    have h2 : parse 0 (ascii "-6,1234,111111,-;msg\n") =
      .ok ⟨ascii "msg", ascii "kern", ascii "crit", 1234, [], 0⟩ := by decide
    rw [h2] at h
    simp at h⟩

/-- C7. For a record with a `;`, at least 4 fields and a priority that converts,
`parse` fails with the bad-sequence error exactly when `strconv.Atoi` rejects field 1,
and otherwise returns an event whose `seq` is the integer value of field 1. -/
theorem parse_sequence (now : Nat) (F R f0 f1 : Bytes) (rest : List Bytes) (p : Int)
    (hF : 59 ∉ F) (hfields : Split F 44 = f0 :: f1 :: rest) (hrest : 2 ≤ rest.length)
    (hp : Atoi f0 = .ok p) :
    ((∃ rf num e, parse now (F ++ 59 :: R) = .err (.badSequence rf num e)) ↔
      ∃ e, Atoi f1 = .error e) ∧
    (∀ s, Atoi f1 = .ok s → ∃ msg, parse now (F ++ 59 :: R) = .ok msg ∧ msg.seq = s) := by
  obtain ⟨m, l, d', sev, fac, _, _, _, hparse⟩ :=
    parse_fields now F R f0 f1 rest p hF hfields hrest hp
  refine ⟨⟨?_, ?_⟩, ?_⟩
  · rintro ⟨rf, num, e, h⟩
    rw [hparse] at h
    cases hs : Atoi f1 with
    | error e' => exact ⟨e', rfl⟩
    | ok s => simp [hs] at h
  · rintro ⟨e, hs⟩
    rw [hs] at hparse
    exact ⟨_, _, _, hparse⟩
  · intro s hs
    rw [hs] at hparse
    exact ⟨_, hparse, rfl⟩

/-- Two instances of C7: the sequence field `12x34` is rejected, `-5` gives `seq = -5`. -/
theorem parse_sequence_witness :
    (∃ rf num e, parse 0 (ascii "6,12x34,0,-" ++ 59 :: ascii "m\n") =
      .err (.badSequence rf num e)) ∧
    (∃ msg, parse 0 (ascii "6,-5,0,-" ++ 59 :: ascii "m\n") = .ok msg ∧ msg.seq = -5) :=
  ⟨(parse_sequence 0 (ascii "6,12x34,0,-") (ascii "m\n") (ascii "6") (ascii "12x34")
      [ascii "0", ascii "-"] 6 (by decide) (by decide) (by decide) rfl).1.mpr ⟨.invalid, rfl⟩,
   (parse_sequence 0 (ascii "6,-5,0,-") (ascii "m\n") (ascii "6") (ascii "-5")
      [ascii "0", ascii "-"] 6 (by decide) (by decide) (by decide) rfl).2 (-5) rfl⟩

/-- C8, as the code has it: for a successfully parsed record `F;M\nL`, when the length
of the label segment `L` itself (before any trimming) exceeds 3 bytes, the labels are the
lines of the trimmed `L`, each trimmed of newlines and blanks, all kept in order; when
`L` has at most 3 bytes there are no labels. -/
theorem parse_labels (now : Nat) (F M L : Bytes) (msg : klogmessage)
    (hF : 59 ∉ F) (hM : 10 ∉ M)
    (hok : parse now (F ++ [59] ++ M ++ [10] ++ L) = .ok msg) :
    msg.labels =
      if L.length > 3 then (Split (Trim L [10, 32]) 10).map (fun line => Trim line [10, 32])
      else [] := by
  have hshape : F ++ [59] ++ M ++ [10] ++ L = F ++ 59 :: (M ++ 10 :: L) := by simp
  rw [hshape] at hok
  rcases fields_cases F with hlt | ⟨f0, f1, rest, hfields, hrest⟩
  · obtain ⟨d, h⟩ := parse_too_few now F (M ++ 10 :: L) hF hlt
    rw [h] at hok
    simp at hok
  · cases hp : Atoi f0 with
    | error e =>
      rw [parse_priority_error now F _ f0 f1 rest e hF hfields hrest hp] at hok
      simp at hok
    | ok p =>
      obtain ⟨m, l, d', sev, fac, hsm, _, _, hparse⟩ :=
        parse_fields now F (M ++ 10 :: L) f0 f1 rest p hF hfields hrest hp
      obtain ⟨buf, hfound, _⟩ := splitMessage_found M L hM
      rw [hfound] at hsm
      simp only [Option.some.injEq, Prod.mk.injEq] at hsm
      obtain ⟨_, hl, _⟩ := hsm
      rw [hparse] at hok
      cases hs : Atoi f1 with
      | error e => simp [hs] at hok
      | ok s =>
        simp only [hs, ParseResult.ok.injEq] at hok
        rw [← hok, ← hl]
        rfl

/-- Two instances of C8 as amended: a label segment of 18 bytes gives its one line, a
label segment of 3 bytes gives no label. -/
theorem parse_labels_witness :
    (parse 0 (ascii "6,1,0,-" ++ [59] ++ ascii "m" ++ [10] ++ ascii "SUBSYSTEM=vmalloc\n") =
        .ok ⟨ascii "m", ascii "kern", ascii "info", 1, [ascii "SUBSYSTEM=vmalloc"], 0⟩ ∧
      [ascii "SUBSYSTEM=vmalloc"] =
        (if (ascii "SUBSYSTEM=vmalloc\n").length > 3 then
          (Split (Trim (ascii "SUBSYSTEM=vmalloc\n") [10, 32]) 10).map
            (fun line => Trim line [10, 32])
        else [])) ∧
    (parse 0 (ascii "6,1,0,-" ++ [59] ++ ascii "m" ++ [10] ++ ascii "a=b") =
        .ok ⟨ascii "m", ascii "kern", ascii "info", 1, [], 0⟩ ∧
      ([] : List Bytes) =
        (if (ascii "a=b").length > 3 then
          (Split (Trim (ascii "a=b") [10, 32]) 10).map (fun line => Trim line [10, 32])
        else [])) :=
  ⟨⟨by decide,
    parse_labels 0 (ascii "6,1,0,-") (ascii "m") (ascii "SUBSYSTEM=vmalloc\n")
      ⟨ascii "m", ascii "kern", ascii "info", 1, [ascii "SUBSYSTEM=vmalloc"], 0⟩
      (by decide) (by decide) (by decide)⟩,
   ⟨by decide,
    parse_labels 0 (ascii "6,1,0,-") (ascii "m") (ascii "a=b")
      ⟨ascii "m", ascii "kern", ascii "info", 1, [], 0⟩
      (by decide) (by decide) (by decide)⟩⟩

/-- C8 as stated fails: the label segment `a` followed by three newlines has trimmed
length 1, at most 3, and yet the event has the label `a`. -/
theorem short_trimmed_segment_has_label :
    (Trim (ascii "a\n\n\n") [10, 32]).length ≤ 3 ∧
    parse 0 (ascii "6,1,0,-" ++ [59] ++ ascii "m" ++ [10] ++ ascii "a\n\n\n") =
      .ok ⟨ascii "m", ascii "kern", ascii "info", 1, [ascii "a"], 0⟩ := by
  decide

/-! ## More on the escape codec -/

theorem decodeList_append (u X : Bytes) (hu : WellFormed u) :
    decodeList (u ++ X) = decodeList u ++ decodeList X := by
  induction hu with
  | nil => simp [decodeList]
  | literal b u hb _ ih =>
    rw [List.cons_append, decodeList_literal b _ hb, decodeList_literal b _ hb, ih]
    rfl
  | backslash u _ ih =>
    simp only [List.cons_append]
    rw [decodeList_backslash, decodeList_backslash, ih]
    rfl
  | hex h l u _ _ _ ih =>
    simp only [List.cons_append]
    rw [decodeList_hex, decodeList_hex, ih]
    rfl

/-- C11, as the code has it: after a well-formed escaped text `u`, backslash and `x`
followed by any two bytes `h`, `l` is decoded to the one byte `hex2byte(h, l)`, and the
decoding goes on with the rest `r`; the two bytes are not checked to be hexadecimal
digits. -/
theorem messageDecode_hex_any (u r : Bytes) (h l : Nat) (hu : WellFormed u) :
    ∃ du dr, messageDecode u = some du ∧ messageDecode r = some dr ∧
      messageDecode (u ++ [92, 120, h, l] ++ r) = some (du ++ hex2byte h l :: dr) := by
  refine ⟨decodeList u, decodeList r, messageDecode_eq u, messageDecode_eq r, ?_⟩
  rw [messageDecode_eq, List.append_assoc, decodeList_append u _ hu]
  simp only [List.cons_append, List.nil_append]
  rw [decodeList_hex]

/-- An instance of C11 as amended: `a\x41b` decodes to `aAb`, and with the bytes `ZZ` in
the place of the digits the text still decodes, to `a3b`. -/
theorem messageDecode_hex_any_witness :
    (∃ du dr, messageDecode [97] = some du ∧ messageDecode [98] = some dr ∧
      messageDecode ([97] ++ [92, 120, 52, 49] ++ [98]) = some (du ++ hex2byte 52 49 :: dr)) ∧
    hex2byte 52 49 = 65 :=
  ⟨messageDecode_hex_any [97] [98] 52 49 (.literal 97 _ (by decide) .nil), by decide⟩

/-- C11 as stated fails: in `a\xZZb` the bytes after `x` are not hexadecimal digits, and
the text decodes to `a3b`, not to `a`. -/
theorem non_hex_digits_are_decoded :
    ¬ isHexDigit 90 ∧ WellFormed [97] ∧
    messageDecode ([97] ++ [92, 120, 90, 90] ++ [98]) = some (ascii "a3b") ∧
    messageDecode ([97] ++ [92, 120, 90, 90] ++ [98]) ≠ messageDecode [97] :=
  ⟨by unfold isHexDigit; omega, .literal 97 _ (by decide) .nil, by decide, by decide⟩

/-- C12 fails on the code: the text `abc` followed by one backslash decodes to the same
four bytes, the backslash included; the test `ip+1 >= len(data)` in the first `if` of the
loop copies it, and the `return` under "broken input, abort" is never reached. -/
theorem trailing_backslash_is_copied :
    WellFormed (ascii "abc") ∧
    messageDecode (ascii "abc" ++ [92]) = some (ascii "abc" ++ [92]) ∧
    messageDecode (ascii "abc") = some (ascii "abc") ∧
    messageDecode (ascii "abc" ++ [92]) ≠ messageDecode (ascii "abc") :=
  ⟨.literal 97 _ (by decide) (.literal 98 _ (by decide) (.literal 99 _ (by decide) .nil)),
   by decide, by decide, by decide⟩

/-! ## The cursors of `messageDecode` -/

theorem advances_inv (A C T : Bytes) (op v : Nat) (hop : op ≤ A.length) (hC : C ≠ [])
    (h : Advances A C T op v) :
    ∃ s', decodeBody ⟨A ++ (C ++ T), A.length, op⟩ = .next s' ∧ s'.op ≤ s'.ip ∧
      s'.ip ≤ s'.data.length ∧ s'.data.length = (A ++ (C ++ T)).length ∧ A.length < s'.ip := by
  obtain ⟨A2, hbody, hlen, _⟩ := h
  have hClen : 0 < C.length := List.length_pos.mpr hC
  refine ⟨_, hbody, ?_, ?_, ?_, ?_⟩ <;> simp [hlen] <;> omega

/-- One pass of the loop body from cursors `op <= ip < len(data)`: no index is out of
range; the pass either returns, or goes on with cursors `op <= ip <= len(data)`, a larger
`ip` and a buffer of the same length. -/
theorem decodeBody_cursors (A B : Bytes) (op : Nat) (hop : op ≤ A.length) (hB : B ≠ []) :
    (∃ s', decodeBody ⟨A ++ B, A.length, op⟩ = .next s' ∧ s'.op ≤ s'.ip ∧
      s'.ip ≤ s'.data.length ∧ s'.data.length = (A ++ B).length ∧ A.length < s'.ip) ∨
    decodeBody ⟨A ++ B, A.length, op⟩ = .ret ⟨A ++ B, A.length, op⟩ := by
  match B, hB with
  | [b], _ =>
    exact Or.inl (advances_inv A [b] [] op b hop (by simp) (body_copy A [] b op hop (Or.inr rfl)))
  | b :: c :: T, _ =>
    by_cases hb : b = 92
    · subst hb
      by_cases hc : c = 92
      · subst hc
        exact Or.inl (advances_inv A [92, 92] T op 92 hop (by simp) (body_backslash A T op hop))
      · by_cases hx : c = 120 ∧ 2 ≤ T.length
        · obtain ⟨hx, hlen⟩ := hx
          subst hx
          match T, hlen with
          | high :: low :: T', _ =>
            exact Or.inl (advances_inv A [92, 120, high, low] T' op _ hop (by simp)
              (body_hex A T' high low op hop))
        · exact Or.inr
            (body_abort A T c op hc (by intro h; by_contra h2; exact hx ⟨h, by omega⟩))
    · exact Or.inl (advances_inv A [b] (c :: T) op b hop (by simp)
        (body_copy A (c :: T) b op hop (Or.inl hb)))

theorem decodeBody_state (s : DecodeState) (hop : s.op ≤ s.ip) (hip : s.ip < s.data.length) :
    (∃ s', decodeBody s = .next s' ∧ s'.op ≤ s'.ip ∧ s'.ip ≤ s'.data.length ∧
      s'.data.length = s.data.length ∧ s.ip < s'.ip) ∨ decodeBody s = .ret s := by
  have hA : (s.data.take s.ip).length = s.ip := by simp; omega
  have hB : s.data.drop s.ip ≠ [] := by
    intro h
    have := congrArg List.length h
    simp at this
    omega
  have hs : s = ⟨s.data.take s.ip ++ s.data.drop s.ip, (s.data.take s.ip).length, s.op⟩ := by
    cases s
    simp at hA ⊢
    omega
  have h := decodeBody_cursors (s.data.take s.ip) (s.data.drop s.ip) s.op (by omega) hB
  rw [← hs] at h
  simpa [hA] using h

theorem reachable_cursors (data : Bytes) (s : DecodeState) (h : Reachable data s) :
    s.op ≤ s.ip ∧ s.ip ≤ s.data.length ∧ s.data.length = data.length := by
  induction h with
  | start => simp
  | step s s' _ hlt hbody ih =>
    rcases decodeBody_state s ih.1 hlt with ⟨t, ht, h1, h2, h3, _⟩ | hret
    · rw [hbody] at ht
      cases ht
      exact ⟨h1, h2, h3.trans ih.2.2⟩
    · rw [hbody] at hret
      cases hret

theorem messageDecode_length (data : Bytes) :
    ∃ out, messageDecode data = some out ∧ out.length ≤ data.length := by
  obtain ⟨s', h1, h2, _⟩ := decodeLoop_spec (data.length + 1) [] data 0 (by simp) (by omega)
  simp only [List.nil_append, List.length_nil] at h1 h2
  refine ⟨s'.data.take s'.op, by simp [messageDecode, messageDecodeBuf, h1], ?_⟩
  rw [List.length_take, h2]
  omega

/-- C18. In every state that the loop of `messageDecode` reaches on an input buffer, the
write cursor `op` is at most the read cursor `ip`, and `ip` is at most `len(data)`; while
`ip < len(data)` a pass of the body reads and writes within bounds (it does not fault)
and, when the loop goes on, leaves a strictly larger `ip`; the function returns, and the
returned string is no longer than the input. -/
theorem messageDecode_cursors (data : Bytes) (s : DecodeState) (h : Reachable data s) :
    s.op ≤ s.ip ∧ s.ip ≤ s.data.length ∧ s.data.length = data.length ∧
    (s.ip < s.data.length → decodeBody s ≠ .fault ∧
      ∀ s', decodeBody s = .next s' → s.ip < s'.ip ∧ Reachable data s') ∧
    ∃ out, messageDecode data = some out ∧ out.length ≤ data.length := by
  obtain ⟨h1, h2, h3⟩ := reachable_cursors data s h
  refine ⟨h1, h2, h3, ?_, messageDecode_length data⟩
  intro hlt
  rcases decodeBody_state s h1 hlt with ⟨t, ht, _, _, _, hlt'⟩ | hret
  · refine ⟨by rw [ht]; simp, ?_⟩
    intro s' hs'
    rw [ht] at hs'
    cases hs'
    exact ⟨hlt', .step s t h hlt ht⟩
  · refine ⟨by rw [hret]; simp, ?_⟩
    intro s' hs'
    rw [hret] at hs'
    cases hs'

/-- An instance of C18: on the buffer `a\\b` the state after the first pass has the
cursors `op = ip = 1`, and the next pass moves `ip` to 3. -/
theorem messageDecode_cursors_witness :
    (1 : Nat) ≤ 1 ∧ 1 ≤ [97, 92, 92, 98].length ∧
    [97, 92, 92, 98].length = [97, 92, 92, 98].length ∧
    ((1 : Nat) < [97, 92, 92, 98].length →
      decodeBody ⟨[97, 92, 92, 98], 1, 1⟩ ≠ .fault ∧
      ∀ s', decodeBody ⟨[97, 92, 92, 98], 1, 1⟩ = .next s' →
        1 < s'.ip ∧ Reachable [97, 92, 92, 98] s') ∧
    ∃ out, messageDecode [97, 92, 92, 98] = some out ∧ out.length ≤ [97, 92, 92, 98].length :=
  messageDecode_cursors [97, 92, 92, 98] ⟨[97, 92, 92, 98], 1, 1⟩
    (.step ⟨[97, 92, 92, 98], 0, 0⟩ _ .start (by decide) (by decide))

/-! ## More on `parse` -/

/-- C16. For a record with a `;` and at least 4 fields whose priority field converts to
an integer `p` of any sign, the severity index `p & 7` lies in `[0, 8)` and selects an
entry, `parse` ends without a run-time fault, the facility table is read only for
`0 <= p / 8 < 24`, and a `p / 8` that is negative or at least 24 gives the facility
`"<invalid>"`. -/
theorem classification_never_faults (now : Nat) (F R f0 f1 : Bytes) (rest : List Bytes)
    (p : Int) (hF : 59 ∉ F) (hfields : Split F 44 = f0 :: f1 :: rest) (hrest : 2 ≤ rest.length)
    (hp : Atoi f0 = .ok p) :
    0 ≤ andInt p 0x7 ∧ andInt p 0x7 < 8 ∧
    (∃ sev, tableAt SEVERITY (andInt p 0x7) = some sev) ∧
    parse now (F ++ 59 :: R) ≠ .fault ∧
    (0 ≤ Int.tdiv p 8 ∧ Int.tdiv p 8 < 24 → ∃ fac, tableAt FACILITY (Int.tdiv p 8) = some fac) ∧
    (Int.tdiv p 8 < 0 ∨ 24 ≤ Int.tdiv p 8 →
      ∀ msg, parse now (F ++ 59 :: R) = .ok msg → msg.facility = ascii "<invalid>") ∧
    (∀ s, Atoi f1 = .ok s → ∃ msg, parse now (F ++ 59 :: R) = .ok msg) := by
  obtain ⟨m, l, d, sev, fac, _, hsev, hfac, hparse⟩ :=
    parse_fields now F R f0 f1 rest p hF hfields hrest hp
  have hlenF : (FACILITY.length : Int) = 24 := by decide
  rw [hlenF] at hfac
  refine ⟨by rw [andInt_seven]; omega, by rw [andInt_seven]; omega, ⟨sev, hsev⟩, ?_, ?_, ?_, ?_⟩
  · rw [hparse]
    cases Atoi f1 <;> simp
  · intro hin
    rw [if_pos (by exact ⟨hin.1, hin.2⟩)] at hfac
    exact ⟨fac, hfac⟩
  · intro hout msg hmsg
    rw [if_neg (by omega)] at hfac
    rw [hparse] at hmsg
    cases hs : Atoi f1 with
    | error e => simp [hs] at hmsg
    | ok s =>
      simp only [hs, ParseResult.ok.injEq] at hmsg
      rw [← hmsg]
      exact (Option.some.inj hfac).symm
  · intro s hs
    rw [hparse, hs]
    exact ⟨_, rfl⟩

/-- Two instances of C16: the priorities `-9` and `200` are classified, with the
facility `"<invalid>"`. -/
theorem classification_never_faults_witness :
    parse 0 (ascii "-9,1,0,-" ++ 59 :: ascii "m\n") =
      .ok ⟨ascii "m", ascii "<invalid>", ascii "debug", 1, [], 0⟩ ∧
    parse 0 (ascii "200,1,0,-" ++ 59 :: ascii "m\n") =
      .ok ⟨ascii "m", ascii "<invalid>", ascii "emerg", 1, [], 0⟩ ∧
    (0 ≤ andInt (-9) 0x7 ∧ andInt (-9) 0x7 < 8 ∧
      (∃ sev, tableAt SEVERITY (andInt (-9) 0x7) = some sev) ∧
      parse 0 (ascii "-9,1,0,-" ++ 59 :: ascii "m\n") ≠ .fault ∧
      (0 ≤ Int.tdiv (-9) 8 ∧ Int.tdiv (-9) 8 < 24 →
        ∃ fac, tableAt FACILITY (Int.tdiv (-9) 8) = some fac) ∧
      (Int.tdiv (-9) 8 < 0 ∨ 24 ≤ Int.tdiv (-9) 8 →
        ∀ msg, parse 0 (ascii "-9,1,0,-" ++ 59 :: ascii "m\n") = .ok msg →
          msg.facility = ascii "<invalid>") ∧
      (∀ s, Atoi (ascii "1") = .ok s →
        ∃ msg, parse 0 (ascii "-9,1,0,-" ++ 59 :: ascii "m\n") = .ok msg)) :=
  ⟨by decide, by decide,
   classification_never_faults 0 (ascii "-9,1,0,-") (ascii "m\n") (ascii "-9") (ascii "1")
    [ascii "0", ascii "-"] (-9) (by decide) (by decide) (by decide) rfl⟩

/-- C17, as the code has it: two records with the same fields 0 and 1 and the same text
after the `;`, each with at least 4 fields, give the same kind of result: events with
equal `seq`, `facility`, `severity`, `message` and `labels`, or the same kind of error for
the same field and cause. The text of an error quotes the whole raw field text, so the
errors themselves differ where the later fields do. -/
theorem parse_later_fields (now1 now2 : Nat) (F1 F2 R f0 f1 : Bytes) (rest1 rest2 : List Bytes)
    (hF1 : 59 ∉ F1) (hF2 : 59 ∉ F2)
    (h1 : Split F1 44 = f0 :: f1 :: rest1) (h2 : Split F2 44 = f0 :: f1 :: rest2)
    (hrest1 : 2 ≤ rest1.length) (hrest2 : 2 ≤ rest2.length) :
    sameOutcome (parse now1 (F1 ++ 59 :: R)) (parse now2 (F2 ++ 59 :: R)) := by
  cases hp : Atoi f0 with
  | error e =>
    rw [parse_priority_error now1 F1 R f0 f1 rest1 e hF1 h1 hrest1 hp,
      parse_priority_error now2 F2 R f0 f1 rest2 e hF2 h2 hrest2 hp]
    exact ⟨rfl, rfl⟩
  | ok p =>
    obtain ⟨m, l, d, sev, fac, hsm, hsev, hfac, hparse⟩ :=
      parse_fields now1 F1 R f0 f1 rest1 p hF1 h1 hrest1 hp
    obtain ⟨m', l', d', sev', fac', hsm', hsev', hfac', hparse'⟩ :=
      parse_fields now2 F2 R f0 f1 rest2 p hF2 h2 hrest2 hp
    rw [hsm] at hsm'
    rw [hsev] at hsev'
    rw [hfac] at hfac'
    simp only [Option.some.injEq, Prod.mk.injEq] at hsm' hsev' hfac'
    obtain ⟨hm, hl, _⟩ := hsm'
    rw [hparse, hparse']
    cases hs : Atoi f1 with
    | error e => exact ⟨rfl, rfl⟩
    | ok s => exact ⟨rfl, hfac', hsev', hm, by rw [hl]⟩

/-- Two instances of C17 as amended: records that differ in fields 2 and 3 only decode to
events that agree (but for the read instant), or fail with the same kind of error. -/
theorem parse_later_fields_witness :
    sameOutcome (parse 1 (ascii "6,1234,111111,-" ++ 59 :: ascii "msg\n"))
      (parse 2 (ascii "6,1234,999,c" ++ 59 :: ascii "msg\n")) ∧
    sameOutcome (parse 1 (ascii "x,1234,111111,-" ++ 59 :: ascii "msg\n"))
      (parse 2 (ascii "x,1234,999,c" ++ 59 :: ascii "msg\n")) :=
  ⟨parse_later_fields 1 2 (ascii "6,1234,111111,-") (ascii "6,1234,999,c") (ascii "msg\n")
      (ascii "6") (ascii "1234") [ascii "111111", ascii "-"] [ascii "999", ascii "c"]
      (by decide) (by decide) (by decide) (by decide) (by decide) (by decide),
   parse_later_fields 1 2 (ascii "x,1234,111111,-") (ascii "x,1234,999,c") (ascii "msg\n")
      (ascii "x") (ascii "1234") [ascii "111111", ascii "-"] [ascii "999", ascii "c"]
      (by decide) (by decide) (by decide) (by decide) (by decide) (by decide)⟩

/-- C17 as stated fails: the records `x,1234,111111,-;msg` and `x,1234,999,c;msg` differ
in fields 2 and 3 only, and `parse` returns two different errors, each quoting its own
raw field text. -/
theorem errors_quote_later_fields :
    parse 0 (ascii "x,1234,111111,-;msg\n") =
      .err (.badPriority (ascii "x,1234,111111,-") (ascii "x") .invalid) ∧
    parse 0 (ascii "x,1234,999,c;msg\n") =
      .err (.badPriority (ascii "x,1234,999,c") (ascii "x") .invalid) ∧
    parse 0 (ascii "x,1234,111111,-;msg\n") ≠ parse 0 (ascii "x,1234,999,c;msg\n") := by
  decide

/-- C20. A record with a `;`, at least 4 fields of which the first two convert, and no
newline byte after the `;` parses: the event has the empty message and no labels, the
text after the `;` is not used. -/
theorem parse_without_newline (now : Nat) (F R f0 f1 : Bytes) (rest : List Bytes) (p s : Int)
    (hF : 59 ∉ F) (hfields : Split F 44 = f0 :: f1 :: rest) (hrest : 2 ≤ rest.length)
    (hp : Atoi f0 = .ok p) (hs : Atoi f1 = .ok s) (hR : 10 ∉ R) :
    ∃ msg, parse now (F ++ 59 :: R) = .ok msg ∧ msg.message = [] ∧ msg.labels = [] ∧
      msg.seq = s := by
  obtain ⟨m, l, d, sev, fac, hsm, _, _, hparse⟩ :=
    parse_fields now F R f0 f1 rest p hF hfields hrest hp
  have hnone : splitMessage R = some ([], [], R) := by
    simp [splitMessage, scanFor_none 10 R hR]
  rw [hnone] at hsm
  simp only [Option.some.injEq, Prod.mk.injEq] at hsm
  obtain ⟨hm, hl, _⟩ := hsm
  rw [hparse, hs]
  refine ⟨_, rfl, hm.symm, ?_, rfl⟩
  rw [← hl]
  rfl

/-- An instance of C20: the text `Out of memory` after the `;` has no newline, and the
event has the empty message. -/
theorem parse_without_newline_witness :
    parse 0 (ascii "6,1234,111111,-;Out of memory") =
      .ok ⟨[], ascii "kern", ascii "info", 1234, [], 0⟩ ∧
    ∃ msg, parse 0 (ascii "6,1234,111111,-" ++ 59 :: ascii "Out of memory") = .ok msg ∧
      msg.message = [] ∧ msg.labels = [] ∧ msg.seq = 1234 :=
  ⟨by decide,
   parse_without_newline 0 (ascii "6,1234,111111,-") (ascii "Out of memory") (ascii "6")
    (ascii "1234") [ascii "111111", ascii "-"] 6 1234 (by decide) (by decide) (by decide)
    rfl rfl (by decide)⟩

/-! ## The reader loop -/

theorem klogLoop_parsed (pre post : List ReadResult) (sent : List klogmessage)
    (hpre : ∀ r ∈ pre, ∃ data now msg, r = .record data now ∧ parse now data = .ok msg) :
    klogLoop (pre ++ post) sent = klogLoop post (sent ++ parsedEvents pre) ∧
      (parsedEvents pre).length = pre.length := by
  induction pre generalizing sent with
  | nil => simp [parsedEvents]
  | cons r pre ih =>
    obtain ⟨data, now, msg, hr, hmsg⟩ := hpre r (by simp)
    subst hr
    have ih' := ih (sent ++ [msg]) (fun r hr => hpre r (by simp [hr]))
    have hev : parsedEvents (.record data now :: pre) = msg :: parsedEvents pre := by
      simp [parsedEvents, hmsg]
    rw [hev]
    refine ⟨?_, by simp [ih'.2]⟩
    rw [List.cons_append]
    simp only [klogLoop, hmsg]
    rw [ih'.1]
    simp

/-- C19. With the device given as the sequence of its read results: when the reads
`pre` all deliver records that parse, and the next read fails or delivers a record that
`parse` rejects, `klog` sends exactly the parsed events of `pre`, one per read and in read
order, and returns that first error; the reads after it play no part. -/
theorem klog_first_error (size : Nat) (pre post : List ReadResult) (bad : ReadResult)
    (err : KlogError)
    (hpre : ∀ r ∈ pre, ∃ data now msg, r = .record data now ∧ parse now data = .ok msg)
    (hbad : (∃ errno, bad = .failure errno ∧ err = .device errno) ∨
      (∃ data now e, bad = .record data now ∧ parse now data = .err e ∧ err = .record e)) :
    klog (.ok size) (.ok ()) (pre ++ bad :: post) = (parsedEvents pre, .returned err) ∧
      (parsedEvents pre).length = pre.length := by
  obtain ⟨hloop, hlen⟩ := klogLoop_parsed pre (bad :: post) [] hpre
  refine ⟨?_, hlen⟩
  simp only [klog, hloop, List.nil_append]
  rcases hbad with ⟨errno, rfl, rfl⟩ | ⟨data, now, e, rfl, hparse, rfl⟩
  · simp [klogLoop]
  · simp [klogLoop, hparse]

/-- An instance of C19: two good records, then one with two fields, then a good one: the
two events are sent and the malformed-fields error is returned. -/
theorem klog_first_error_witness :
    klog (.ok 1024) (.ok ())
      ([.record (ascii "6,1,0,-;a\n") 1, .record (ascii "6,2,0,-;b\n") 2] ++
        .record (ascii "6,3;c\n") 3 :: [.record (ascii "6,4,0,-;d\n") 4]) =
      ([⟨ascii "a", ascii "kern", ascii "info", 1, [], 1⟩,
        ⟨ascii "b", ascii "kern", ascii "info", 2, [], 2⟩],
       .returned (.record (.malformedFields 2 (ascii "6,3") (ascii "c\n")))) :=
  (klog_first_error 1024 [.record (ascii "6,1,0,-;a\n") 1, .record (ascii "6,2,0,-;b\n") 2]
    [.record (ascii "6,4,0,-;d\n") 4] (.record (ascii "6,3;c\n") 3)
    (.record (.malformedFields 2 (ascii "6,3") (ascii "c\n")))
    (by
      intro r hr
      simp only [List.mem_cons, List.mem_singleton, List.not_mem_nil, or_false] at hr
      rcases hr with rfl | rfl
      · exact ⟨_, _, _, rfl, rfl⟩
      · exact ⟨_, _, _, rfl, rfl⟩)
    (Or.inr ⟨_, _, _, rfl, by decide, rfl⟩)).1

/-! ## The serializer -/

theorem replaceAll_quote (s : Bytes) :
    ReplaceAll s 34 (ascii "\\\"") =
      (s.map (fun b => if b = 34 then [92, 34] else [b])).flatten := by
  have h : ascii "\\\"" = [92, 34] := by decide
  rw [h]
  induction s with
  | nil => simp [ReplaceAll]
  | cons b s ih => simp only [ReplaceAll, ih, List.map_cons, List.flatten_cons]

theorem opening_foldl (l : List (Bytes × Bytes)) (acc : Bytes) :
    l.foldl (fun pre kv => pre ++ ascii "\"" ++ kv.1 ++ ascii "\":\"" ++ kv.2 ++ ascii "\",") acc =
      acc ++ (l.map labelEntry).flatten := by
  induction l generalizing acc with
  | nil => simp
  | cons kv l ih =>
    have h1 : ascii "\"" = [34] := by decide
    have h2 : ascii "\":\"" = [34, 58, 34] := by decide
    have h3 : ascii "\"," = [34, 44] := by decide
    rw [List.foldl_cons, ih]
    simp [h1, h2, h3, quoted, labelEntry]

theorem jsonifyOpening_eq (l : List (Bytes × Bytes)) :
    jsonifyOpening l =
      [123] ++ (l.map labelEntry).flatten := by
  unfold jsonifyOpening
  split
  · exact opening_foldl l [123]
  · have : l = [] := by
      cases l with
      | nil => rfl
      | cons _ _ => simp at *
    subst this
    rfl

theorem metadataLoop_later (labels : List Bytes) (i : Nat) (acc : Bytes) (hi : 0 < i) :
    metadataLoop labels i acc = acc ++ (labels.map (fun m => [44] ++ quoted m)).flatten := by
  induction labels generalizing i acc with
  | nil => simp [metadataLoop]
  | cons m labels ih =>
    have h1 : ascii "\"" = [34] := by decide
    have h2 : ascii "," = [44] := by decide
    simp only [metadataLoop, hi, if_true, ih _ _ (Nat.succ_pos i), h1, h2, List.map_cons,
      List.flatten_cons, quoted]
    simp

theorem commaSeparated_cons (x : Bytes) (rest : List Bytes) :
    commaSeparated (x :: rest) = x ++ (rest.map (fun m => [44] ++ m)).flatten := by
  induction rest generalizing x with
  | nil => simp [commaSeparated]
  | cons y rest ih => simp [commaSeparated, ih y]

theorem metadataLoop_first (m : Bytes) (labels : List Bytes) (acc : Bytes) :
    metadataLoop (m :: labels) 0 acc = acc ++ commaSeparated ((m :: labels).map quoted) := by
  have h1 : ascii "\"" = [34] := by decide
  simp only [metadataLoop, Nat.lt_irrefl, if_false, gt_iff_lt, List.map_cons,
    commaSeparated_cons, metadataLoop_later _ _ _ (Nat.succ_pos 0), h1, quoted, List.map_map]
  simp [Function.comp_def, quoted]

theorem jsonify_eq (marshal : Nat → Bytes) (labels : List (Bytes × Bytes)) (msg : klogmessage) :
    jsonify marshal labels msg = serializeSpec marshal labels msg := by
  have hmeta : (if msg.labels.length > 0 then
        metadataLoop msg.labels 0 (ascii ",\"metadata\":[") ++ ascii "]" else []) =
      (if msg.labels = [] then []
        else [44] ++ quoted (ascii "metadata") ++ [58, 91] ++
          commaSeparated (msg.labels.map quoted) ++ [93]) := by
    cases hl : msg.labels with
    | nil => simp
    | cons m rest =>
      have h1 : ascii ",\"metadata\":[" = [44] ++ quoted (ascii "metadata") ++ [58, 91] := by
        decide
      have h2 : ascii "]" = [93] := by decide
      simp only [List.length_cons, gt_iff_lt, Nat.succ_pos, if_true, metadataLoop_first, h1, h2]
      simp
  have h1 : ascii "\"seq\":" = quoted (ascii "seq") ++ [58] := by decide
  have h2 : ascii "\"facility\":\"" = quoted (ascii "facility") ++ [58, 34] := by decide
  have h3 : ascii "\"severity\":\"" = quoted (ascii "severity") ++ [58, 34] := by decide
  have h4 : ascii "\"message\":\"" = quoted (ascii "message") ++ [58, 34] := by decide
  have h5 : ascii "\"timestamp\":" = quoted (ascii "timestamp") ++ [58] := by decide
  have h6 : ascii "\"," = [34, 44] := by decide
  have h7 : ascii "," = [44] := by decide
  unfold jsonify serializeSpec eventFields
  simp only [hmeta, jsonifyOpening_eq, replaceAll_quote, h1, h2, h3, h4, h5, h6, h7]
  simp only [quoted, List.append_assoc, List.cons_append, List.nil_append]

theorem append_around (X M S A B C t : Bytes) (hX : X = A) (hM : M = B) (hS : S = C) :
    X ++ t ++ M ++ S = A ++ t ++ B ++ C := by
  rw [hX, hM, hS]

/-- C13. For every event and every list of static labels (in the order in which the
`range` statement yields them), the serializer returned by `jsonify` writes exactly `{`,
one `"key":"value",` per static label, `"seq":` and the decimal `seq`, the `facility`,
`severity` and `message` strings (in the message every `"` replaced by backslash and
`"`), `"timestamp":` and the encoded instant, then `,"metadata":[...]` with the quoted
labels in order and comma separated exactly when there are labels, then `}`; the
out-of-memory event with the static label `host=node-1` gives the text of the scenario. -/
theorem jsonify_shape :
    (∀ (marshal : Nat → Bytes) (staticLabels : List (Bytes × Bytes)) (event : klogmessage),
      jsonify marshal staticLabels event =
        [123] ++ (staticLabels.map labelEntry).flatten ++ eventFields marshal event) ∧
    (∀ (marshal : Nat → Bytes) (now : Nat),
      jsonify marshal [(ascii "host", ascii "node-1")]
        ⟨ascii "Out of memory: Kill process 1234", ascii "kern", ascii "info", 1234,
          [ascii "SUBSYSTEM=vmalloc"], now⟩ =
      ascii ("\x7b\"host\":\"node-1\",\"seq\":1234,\"facility\":\"kern\",\"severity\":\"info\"," ++
          "\"message\":\"Out of memory: Kill process 1234\",\"timestamp\":") ++
        marshal now ++ ascii ",\"metadata\":[\"SUBSYSTEM=vmalloc\"]" ++ ascii "\x7d") :=
  ⟨fun marshal staticLabels event => jsonify_eq marshal staticLabels event,
   fun marshal now => by
    unfold jsonify
    dsimp only
    exact append_around _ _ _ _ _ _ (marshal now) (by decide) (by decide) (by decide)⟩

/-- C14 fails on the code: the record `6,1,0,-;C:\\temp` (the backslash doubled by the
kernel) decodes to the message `C:\temp`, and the serializer writes the member
`"message":"C:\temp"`, in which a JSON reader takes `\t` for a tab; the record
`6,1,0,-;a\x0ab` decodes to a message with a newline byte, which the serializer writes
as it is between the quotes. Only `"` is escaped. -/
theorem jsonify_leaves_backslash_and_newline :
    parse 0 (ascii "6,1,0,-;C:" ++ [92, 92] ++ ascii "temp\n") =
      .ok ⟨ascii "C:" ++ [92] ++ ascii "temp", ascii "kern", ascii "info", 1, [], 0⟩ ∧
    jsonify (fun _ => ascii "\"2020-10-01T00:00:00Z\"") []
        ⟨ascii "C:" ++ [92] ++ ascii "temp", ascii "kern", ascii "info", 1, [], 0⟩ =
      ascii "\x7b\"seq\":1,\"facility\":\"kern\",\"severity\":\"info\",\"message\":\"C:" ++
        [92] ++ ascii "temp\",\"timestamp\":\"2020-10-01T00:00:00Z\"\x7d" ∧
    parse 0 (ascii "6,1,0,-;a" ++ [92, 120, 48, 97] ++ ascii "b\n") =
      .ok ⟨[97, 10, 98], ascii "kern", ascii "info", 1, [], 0⟩ ∧
    jsonify (fun _ => ascii "\"2020-10-01T00:00:00Z\"") [] ⟨[97, 10, 98], ascii "kern", ascii "info", 1, [], 0⟩ =
      ascii "\x7b\"seq\":1,\"facility\":\"kern\",\"severity\":\"info\",\"message\":\"" ++
        [97, 10, 98] ++ ascii "\",\"timestamp\":\"2020-10-01T00:00:00Z\"\x7d" := by
  decide

theorem perm_short (l1 l2 : List (Bytes × Bytes)) (hperm : l1.Perm l2) (hlen : l1.length < 2) :
    l1 = l2 := by
  match l1, hlen with
  | [], _ => exact (List.nil_perm.mp hperm).symm
  | [a], _ => exact List.singleton_perm.mp hperm

/-- C15, as the code has it: the serialized text is `{`, the static label entries in the
order in which the mapping is enumerated when `jsonify` builds the opening text, and the
fields of the event, which are the same for every order. Two enumerations of one label
set give the same entries, in their respective orders; the texts are equal when the
set has fewer than two entries. -/
theorem jsonify_enumeration (marshal : Nat → Bytes) (l1 l2 : List (Bytes × Bytes))
    (msg : klogmessage) (hperm : l1.Perm l2) :
    jsonify marshal l1 msg = [123] ++ (l1.map labelEntry).flatten ++ eventFields marshal msg ∧
    jsonify marshal l2 msg = [123] ++ (l2.map labelEntry).flatten ++ eventFields marshal msg ∧
    (l1.map labelEntry).Perm (l2.map labelEntry) ∧
    (l1.length < 2 → jsonify marshal l1 msg = jsonify marshal l2 msg) := by
  refine ⟨jsonify_eq marshal l1 msg, jsonify_eq marshal l2 msg, hperm.map labelEntry, ?_⟩
  intro hlen
  rw [perm_short l1 l2 hperm hlen]

/-- An instance of C15 as amended: the labels `a=1`, `b=2` in the two orders. -/
theorem jsonify_enumeration_witness :
    [(ascii "a", ascii "1"), (ascii "b", ascii "2")].Perm
      [(ascii "b", ascii "2"), (ascii "a", ascii "1")] ∧
    jsonify (fun _ => ascii "\"2020-10-01T00:00:00Z\"") [(ascii "a", ascii "1"), (ascii "b", ascii "2")]
        ⟨ascii "m", ascii "kern", ascii "info", 1, [], 0⟩ =
      [123] ++ ([(ascii "a", ascii "1"), (ascii "b", ascii "2")].map labelEntry).flatten ++
        eventFields (fun _ => ascii "\"2020-10-01T00:00:00Z\"") ⟨ascii "m", ascii "kern", ascii "info", 1, [], 0⟩ ∧
    jsonify (fun _ => ascii "\"2020-10-01T00:00:00Z\"") [(ascii "b", ascii "2"), (ascii "a", ascii "1")]
        ⟨ascii "m", ascii "kern", ascii "info", 1, [], 0⟩ =
      [123] ++ ([(ascii "b", ascii "2"), (ascii "a", ascii "1")].map labelEntry).flatten ++
        eventFields (fun _ => ascii "\"2020-10-01T00:00:00Z\"") ⟨ascii "m", ascii "kern", ascii "info", 1, [], 0⟩ :=
  ⟨List.Perm.swap _ _ _,
   (jsonify_enumeration (fun _ => ascii "\"2020-10-01T00:00:00Z\"") [(ascii "a", ascii "1"), (ascii "b", ascii "2")]
      [(ascii "b", ascii "2"), (ascii "a", ascii "1")]
      ⟨ascii "m", ascii "kern", ascii "info", 1, [], 0⟩ (List.Perm.swap _ _ _)).1,
   (jsonify_enumeration (fun _ => ascii "\"2020-10-01T00:00:00Z\"") [(ascii "a", ascii "1"), (ascii "b", ascii "2")]
      [(ascii "b", ascii "2"), (ascii "a", ascii "1")]
      ⟨ascii "m", ascii "kern", ascii "info", 1, [], 0⟩ (List.Perm.swap _ _ _)).2.1⟩

/-- C15 as stated fails: for the label set `a=1`, `b=2` the two enumeration orders give
two different texts, `{"a":"1","b":"2",...` and `{"b":"2","a":"1",...`. -/
theorem enumeration_order_shows :
    jsonify (fun _ => ascii "\"2020-10-01T00:00:00Z\"") [(ascii "a", ascii "1"), (ascii "b", ascii "2")]
        ⟨ascii "m", ascii "kern", ascii "info", 1, [], 0⟩ =
      ascii ("\x7b\"a\":\"1\",\"b\":\"2\",\"seq\":1,\"facility\":\"kern\",\"severity\":\"info\"," ++
        "\"message\":\"m\",\"timestamp\":\"2020-10-01T00:00:00Z\"\x7d") ∧
    jsonify (fun _ => ascii "\"2020-10-01T00:00:00Z\"") [(ascii "b", ascii "2"), (ascii "a", ascii "1")]
        ⟨ascii "m", ascii "kern", ascii "info", 1, [], 0⟩ =
      ascii ("\x7b\"b\":\"2\",\"a\":\"1\",\"seq\":1,\"facility\":\"kern\",\"severity\":\"info\"," ++
        "\"message\":\"m\",\"timestamp\":\"2020-10-01T00:00:00Z\"\x7d") ∧
    jsonify (fun _ => ascii "\"2020-10-01T00:00:00Z\"") [(ascii "a", ascii "1"), (ascii "b", ascii "2")]
        ⟨ascii "m", ascii "kern", ascii "info", 1, [], 0⟩ ≠
      jsonify (fun _ => ascii "\"2020-10-01T00:00:00Z\"") [(ascii "b", ascii "2"), (ascii "a", ascii "1")]
        ⟨ascii "m", ascii "kern", ascii "info", 1, [], 0⟩ := by
  decide

end K2K
